import Mathlib

/-
Verification development for the klineworld repository.

The repository consists of a Next.js API route (reference ingestion,
generation orchestration, payload validation, JSON recovery) and a page
component (time-series phase transformation for charting).  This file
gives a shallow embedding of the pipeline's pure logic in Lean 4 and
proves the specification claims about it.

Conventions of the embedding:
 * JS strings are modelled as Lean `String` / `List Char` (code points).
 * JS numbers used as phase values are modelled as `ℚ`; timestamps
   (integral seconds) as `ℤ`.
 * External collaborators (the PDF/word parsers, the HTML main-content
   extractor, the network, the `jsonrepair` library, the DeepSeek
   generator) are modelled as oracle parameters: the embedded function
   receives their outcome and performs exactly the control flow of the
   source around it.
 * `Date.UTC(y, m, 1) / 1000` is modelled by `jsUTC` over the proleptic
   Gregorian calendar, including the two-digit-year rule of `Date.UTC`
   and month rollover.
-/

/-! ## JS string primitives -/

/-- The whitespace class of JS `\s` (and `String.prototype.trim`),
restricted to the characters that can actually occur in the pipeline:
ASCII whitespace, NBSP, ideographic space, and the BOM. -/
def isJsWs (c : Char) : Bool :=
  c == '\x20' || c == '\t' || c == '\n' || c == '\r' || c == '\x0b' ||
  c == '\x0c' || c == Char.ofNat 0xa0 || c == Char.ofNat 0x3000 ||
  c == Char.ofNat 0xfeff

/-- Both-ends trim on character lists, modelling `String.prototype.trim`. -/
def trimChars (cs : List Char) : List Char :=
  ((cs.dropWhile isJsWs).reverse.dropWhile isJsWs).reverse

/-- `String.prototype.trim`. -/
def trimJS (s : String) : String :=
  String.mk (trimChars s.data)

/-- Helper for `replace(/\s+/g, " ")`: the flag records that a whitespace
run is pending and must be emitted as a single space. -/
def collapseGo : Bool → List Char → List Char
  | pending, [] => if pending then ['\x20'] else []
  | pending, c :: rest =>
    if isJsWs c then collapseGo true rest
    else if pending then '\x20' :: c :: collapseGo false rest
    else c :: collapseGo false rest

/-- `value.replace(/\s+/g, " ").trim()` (route file, `normalizeWhitespace`). -/
def normalizeWhitespace (s : String) : String :=
  trimJS (String.mk (collapseGo false s.data))

/-- `truncateText` from the route file: truncate to `limit` characters and
append an ellipsis when something was cut. -/
def truncateText (value : String) (limit : Nat) : String :=
  if value = "" then ""
  else if value.length > limit then String.mk (value.data.take limit) ++ "…"
  else value

/-- `MAX_SECTION_CHARS` from the route file. -/
def MAX_SECTION_CHARS : Nat := 4000

/-- `MAX_REFERENCE_CHARS` from the route file. -/
def MAX_REFERENCE_CHARS : Nat := 6000

/-- `MAX_UPLOAD_BYTES` from the route file. -/
def MAX_UPLOAD_BYTES : Nat := 2 * 1024 * 1024

/-! ## Calendar model for `Date.UTC`

`Date.UTC(y, m, 1) / 1000` for the proleptic Gregorian calendar.  The
code only ever builds dates with day 1 and month in `{0, 3, 6, 9}`. -/

/-- Gregorian leap-year predicate, on `ℤ` (Lean's `%` on `ℤ` is the
Euclidean remainder, which agrees with the leap rule on all integers). -/
def isLeapYear (y : Int) : Bool :=
  (y % 4 == 0 && y % 100 != 0) || y % 400 == 0

/-- Days before (0-based) month `m` inside a year.  Values of `m ≥ 12`
cannot reach this function (months are reduced mod 12 first). -/
def monthPrefixDays (leap : Bool) (m : Nat) : Nat :=
  let base : Nat :=
    match m with
    | 0 => 0 | 1 => 31 | 2 => 59 | 3 => 90 | 4 => 120 | 5 => 151
    | 6 => 181 | 7 => 212 | 8 => 243 | 9 => 273 | 10 => 304 | _ => 334
  base + (if leap ∧ 2 ≤ m then 1 else 0)

/-- Days from 0000-01-01 to `y`-01-01 (proleptic Gregorian), via the
closed leap-count formula; `Int.fdiv` is the mathematical floor. -/
def daysFromYear0 (y : Int) : Int :=
  365 * y + (y + 3).fdiv 4 - (y + 99).fdiv 100 + (y + 399).fdiv 400

/-- Day count of the Unix epoch from year 0. -/
def epochShiftDays : Int := daysFromYear0 1970

/-- `Date.UTC(y, m, 1) / 1000`: seconds since epoch, honouring the
two-digit-year rule (`0 ≤ y ≤ 99` means `1900 + y`), month rollover and
the TimeClip step of `Date.UTC`: a time value with absolute value above
8.64e15 ms — equivalently more than 100,000,000 days from the epoch —
is NaN, modelled as `none` (`NaN / 1000` is again NaN). -/
def jsUTC (y : Int) (m : Nat) : Option Int :=
  let yFix : Int := if 0 ≤ y ∧ y ≤ 99 then y + 1900 else y
  let yAll : Int := yFix + (m / 12 : Nat)
  let mRed : Nat := m % 12
  let days : Int := daysFromYear0 yAll +
    (monthPrefixDays (isLeapYear yAll) mRed : Int) - epochShiftDays
  if days.natAbs ≤ 100000000 then some (86400 * days) else none

/-- JS `a <= b` on possibly-NaN numbers: false whenever a side is NaN. -/
def jsLe (a b : Option Int) : Bool :=
  match a, b with
  | some x, some y => decide (x ≤ y)
  | _, _ => false

/-- JS `a < b` on possibly-NaN numbers: false whenever a side is NaN. -/
def jsLt (a b : Option Int) : Bool :=
  match a, b with
  | some x, some y => decide (x < y)
  | _, _ => false

/-- JS `a + k` on a possibly-NaN number: NaN propagates. -/
def jsAdd (a : Option Int) (k : Int) : Option Int :=
  a.map (· + k)

/-! ## Label matchers of `yearToTimestamp` (page component)

Each JS regex is replaced by an equivalent deterministic scanner over
`List Char`: the patterns involved have the property that backtracking
into a greedy `\d+`/`\s*`/optional prefix can never turn a failure at a
start position into a success, so leftmost scanning with maximal munch
computes exactly the JS match. -/

/-- ASCII digit test (the `\\d` class of JS regexes and the JSON digit
set), via code points for easy arithmetic reasoning. -/
def isDigitChar (c : Char) : Bool :=
  48 ≤ c.toNat && c.toNat ≤ 57

/-- Numeric value of a digit run. -/
def digitsVal (ds : List Char) : Nat :=
  ds.foldl (fun acc c => 10 * acc + (c.toNat - 48)) 0

/-- Try `/((?:19|20)\d{2})\s*[Qq]([1-4])/` anchored at this position. -/
def matchQuarterAt (cs : List Char) : Option (Nat × Nat) :=
  match cs with
  | c1 :: c2 :: c3 :: c4 :: rest =>
    if ((c1 == '1' && c2 == '9') || (c1 == '2' && c2 == '0'))
        && isDigitChar c3 && isDigitChar c4 then
      match rest.dropWhile isJsWs with
      | q :: d :: _ =>
        if (q == 'Q' || q == 'q') && (49 ≤ d.toNat && d.toNat ≤ 52) then
          some (digitsVal [c1, c2, c3, c4], d.toNat - 48)
        else none
      | _ => none
    else none
  | _ => none

/-- Leftmost match of the year+quarter pattern. -/
def matchQuarter : List Char → Option (Nat × Nat)
  | [] => none
  | c :: rest =>
    match matchQuarterAt (c :: rest) with
    | some r => some r
    | none => matchQuarter rest

/-- Try `/((?:19|20)\d{2})/` anchored at this position. -/
def matchYearAt (cs : List Char) : Option Nat :=
  match cs with
  | c1 :: c2 :: c3 :: c4 :: _ =>
    if ((c1 == '1' && c2 == '9') || (c1 == '2' && c2 == '0'))
        && isDigitChar c3 && isDigitChar c4 then
      some (digitsVal [c1, c2, c3, c4])
    else none
  | _ => none

/-- Leftmost embedded four-digit year `19xx`/`20xx`. -/
def matchYear : List Char → Option Nat
  | [] => none
  | c :: rest =>
    match matchYearAt (c :: rest) with
    | some r => some r
    | none => matchYear rest

/-- Does the text start with one of the localized ordinal unit words
`季|赛季|期|集|回|话|章|幕|阶段|局|场|篇`? -/
def cnUnitPrefix (cs : List Char) : Bool :=
  match cs with
  | [] => false
  | c :: rest =>
    c == '季' || c == '期' || c == '集' || c == '回' || c == '话' ||
    c == '章' || c == '幕' || c == '局' || c == '场' || c == '篇' ||
    (c == '赛' && (rest.head? == some '季')) ||
    (c == '阶' && (rest.head? == some '段'))

/-- Try `/第?\s*(\d+)\s*(?:季|赛季|…)/` anchored at this position. -/
def matchCnOrdinalAt (cs : List Char) : Option Nat :=
  let cs1 := match cs with
    | '第' :: r => r
    | _ => cs
  let cs2 := cs1.dropWhile isJsWs
  let ds := cs2.takeWhile isDigitChar
  if ds.isEmpty then none
  else if cnUnitPrefix ((cs2.dropWhile isDigitChar).dropWhile isJsWs) then
    some (digitsVal ds)
  else none

/-- Leftmost match of the localized ordinal pattern. -/
def matchCnOrdinal : List Char → Option Nat
  | [] => none
  | c :: rest =>
    match matchCnOrdinalAt (c :: rest) with
    | some r => some r
    | none => matchCnOrdinal rest

/-- Case-insensitive literal prefix strip (keyword given in lowercase). -/
def stripPrefixCI : List Char → List Char → Option (List Char)
  | [], cs => some cs
  | _ :: _, [] => none
  | k :: ks, c :: cs => if c.toLower == k then stripPrefixCI ks cs else none

/-- The keyword alternatives of the English ordinal pattern, in the
source's alternation order. -/
def enKeywords : List (List Char) :=
  ["season".data, "episode".data, "ep".data, "stage".data, "phase".data,
   "round".data, "match".data, "chapter".data, "part".data]

/-- Try one keyword alternative: keyword, `\s*`, `0*(\d+)`.  The numeric
value of the capture equals the value of the full digit run. -/
def enTailAt (cs : List Char) : Option Nat :=
  let cs2 := cs.dropWhile isJsWs
  let ds := cs2.takeWhile isDigitChar
  if ds.isEmpty then none else some (digitsVal ds)

/-- Try `/(?:season|episode|ep|…)\s*0*(\d+)/i` anchored here, iterating
the keyword alternatives in order. -/
def matchEnOrdinalAt (kws : List (List Char)) (cs : List Char) : Option Nat :=
  match kws with
  | [] => none
  | kw :: rest =>
    match stripPrefixCI kw cs with
    | some suffix =>
      match enTailAt suffix with
      | some n => some n
      | none => matchEnOrdinalAt rest cs
    | none => matchEnOrdinalAt rest cs

/-- Leftmost match of the English ordinal pattern. -/
def matchEnOrdinal : List Char → Option Nat
  | [] => none
  | c :: rest =>
    match matchEnOrdinalAt enKeywords (c :: rest) with
    | some r => some r
    | none => matchEnOrdinal rest

/-- Leftmost digit run, `/(\d+)/`. -/
def matchNumeric (cs : List Char) : Option Nat :=
  let run := (cs.dropWhile (fun c => !isDigitChar c)).takeWhile isDigitChar
  if run.isEmpty then none else some (digitsVal run)

/-- A phase boundary label: `number | string` in the source. -/
inductive YLabel where
  | num (value : Int)
  | str (value : String)
deriving DecidableEq, Repr

/-- `yearToTimestamp` from the page component: resolve a boundary label
to a chart timestamp in seconds. -/
def yearToTimestamp (label : YLabel) (index : Nat) : Option Int :=
  match label with
  | .num y => jsUTC y 0
  | .str s =>
    let cs := (trimJS s).data
    match matchQuarter cs with
    | some (y, q) => jsUTC y ((q - 1) * 3)
    | none =>
      match matchYear cs with
      | some y => jsUTC y 0
      | none =>
        match matchCnOrdinal cs with
        | some n => jsUTC (2000 + n) 0
        | none =>
          match matchEnOrdinal cs with
          | some n => jsUTC (2100 + n) 0
          | none =>
            match matchNumeric cs with
            | some n => jsUTC (2200 + n) 0
            | none => jsAdd (jsUTC 1970 0) (index * 86400)

/-! ## Phase data model and transformer (page component) -/

/-- A key event attached to a phase (`TrendEvent` in the source). -/
structure TrendEvent where
  time : String
  description : String
  impact : String
deriving DecidableEq, Repr

/-- One narrative phase (`Phase` in the source). -/
structure Phase where
  start_year : YLabel
  end_year : YLabel
  «open» : ℚ
  high : ℚ
  low : ℚ
  close : ℚ
  label : String
  key_events : List TrendEvent
  relation_note : Option String
  zone : Option String
deriving DecidableEq, Repr

/-- `clampScore` from the page component. -/
def clampScore (value : ℚ) : ℚ :=
  min (max value 0) 100

/-- `normalizePhases` from the page component.  The `!clampToHundred`
branch returns shallow copies (`{...phase}`), which is the identity map
in the value model. -/
def normalizePhases (phases : List Phase) (clampToHundred : Bool) : List Phase :=
  if phases.isEmpty then []
  else if !clampToHundred then phases.map (fun p => p)
  else
    phases.map (fun p =>
      { p with
        «open» := clampScore p.«open»
        high := clampScore p.high
        low := clampScore p.low
        close := clampScore p.close })

/-- Axis metadata (`AxisMeta` in the source).  `kind` is typed as
`"subjective" | "objective"` but arrives from untyped JSON, so it is
modelled as an arbitrary optional string compared literally. -/
structure AxisMeta where
  label : String
  unit : Option String
  kind : Option String
  description : Option String
  range_hint : Option String
deriving DecidableEq, Repr

/-- An axis range (`AxisRange` in the source). -/
structure AxisRange where
  min : ℚ
  max : ℚ
deriving DecidableEq, Repr

/-- `axis?.kind` under optional chaining. -/
def axisKind (axis : Option AxisMeta) : Option String :=
  axis.bind AxisMeta.kind

/-- The clamp decision of the page component (`Home`):
`meta?.kind === "objective" ? false : true`. -/
def shouldClamp (axis : Option AxisMeta) : Bool :=
  if axisKind axis = some "objective" then false else true

/-- `computePhaseRange` from the page component.  The
`Number.isFinite` guard cannot fire over `ℚ` (no NaN/Infinity), and the
JS falsiness `|| 1` on a zero pad/gap is modelled by an explicit test. -/
def computePhaseRange (phases : List Phase) (axis : Option AxisMeta) :
    Option AxisRange :=
  if phases.isEmpty then none
  else if axisKind axis = some "subjective" then some ⟨0, 100⟩
  else
    match phases.flatMap (fun p => [p.«open», p.close, p.low, p.high]) with
    | [] => none
    | v :: vs =>
      let mn := vs.foldl min v
      let mx := vs.foldl max v
      if mn = mx then
        let padding := |mn| * (5 / 100 : ℚ)
        let padding := if padding = 0 then 1 else padding
        some ⟨mn - padding, mx + padding⟩
      else
        let gap := (mx - mn) * (8 / 100 : ℚ)
        let gap := if gap = 0 then 1 else gap
        some ⟨mn - gap, mx + gap⟩

/-- A chart point (`ChartPoint` in the source): timestamp, value, and a
back-reference to the owning phase. -/
structure ChartPoint where
  time : Option Int
  value : ℚ
  phase : Phase
deriving DecidableEq, Repr

/-- The mutable state of `buildAreaData`: the accumulated points, the
label `Map` (modelled as an append list; emitted keys are fresh because
times strictly increase), and `lastTime`. -/
structure BuildState where
  points : List ChartPoint
  labelMap : List (Option Int × String)
  lastTime : Option Int
deriving Repr

/-- `pushPoint` from `buildAreaData`: monotonicity enforcement — a
computed time not strictly above `lastTime` is replaced by
`lastTime + 24 * 60 * 60`.  The `<=` is the JS comparison, which is
false when either side is NaN, so a NaN time is emitted unreplaced and
becomes the new `lastTime`. -/
def pushPoint (st : BuildState) (time : Option Int) (value : ℚ) (ph : Phase)
    (label : String) : BuildState :=
  let t := if jsLe time st.lastTime then jsAdd st.lastTime (24 * 60 * 60)
           else time
  { points := st.points ++ [⟨t, value, ph⟩]
    labelMap := st.labelMap ++ [(t, label)]
    lastTime := t }

/-- The label text used for a boundary (template literal for numbers,
`String(..)` otherwise). -/
def ylabelText : YLabel → String
  | .num y => toString y ++ "年"
  | .str s => s

/-- Body of the `phases.forEach` loop of `buildAreaData`.  The carried
`prev` is `phases[index - 1]` (`none` exactly when `index = 0`). -/
def buildAreaGo : Option Phase → Nat → BuildState → List Phase → BuildState
  | _, _, st, [] => st
  | prev, index, st, ph :: rest =>
    let startTime := yearToTimestamp ph.start_year index
    let endTime := yearToTimestamp ph.end_year (index + 1)
    let boundedOpen := clampScore ph.«open»
    let boundedClose := clampScore ph.close
    let startLabel := ylabelText ph.start_year
    let endLabel := ylabelText ph.end_year
    let st1 :=
      match prev with
      | none => pushPoint st startTime boundedOpen ph startLabel
      | some pv =>
        if pv.end_year ≠ ph.start_year ∨ pv.close ≠ ph.«open» then
          pushPoint st startTime boundedOpen ph startLabel
        else st
    let st2 := pushPoint st1 endTime boundedClose ph endLabel
    buildAreaGo (some ph) (index + 1) st2 rest

/-- `buildAreaData` from the page component. -/
def buildAreaData (phases : List Phase) : BuildState :=
  if phases.isEmpty then ⟨[], [], some 0⟩
  else buildAreaGo none 0 ⟨[], [], some 0⟩ phases

/-! ## JSON value model and `JSON.parse` (route file)

`JSON.parse` is a builtin; it is embedded here as a complete recursive
descent parser for the JSON grammar (ECMA-404), fuelled for
termination.  Numbers are mapped to `ℚ`. -/

/-- A JavaScript/JSON value. -/
inductive JsValue where
  | null
  | bool (b : Bool)
  | num (q : ℚ)
  | str (s : String)
  | arr (elems : List JsValue)
  | obj (fields : List (String × JsValue))
deriving Repr

/-- JS truthiness of a value. -/
def truthy : JsValue → Bool
  | .null => false
  | .bool b => b
  | .num q => !(q == 0)
  | .str s => !(s == "")
  | .arr _ => true
  | .obj _ => true

/-- Truthiness of a nullable value (`null` is falsy). -/
def truthyOpt : Option JsValue → Bool
  | some v => truthy v
  | none => false

/-- JSON insignificant whitespace (only these four characters). -/
def skipJsonWs (cs : List Char) : List Char :=
  cs.dropWhile (fun c => c == '\x20' || c == '\t' || c == '\n' || c == '\r')

/-- Hex digit value. -/
def hexVal (c : Char) : Option Nat :=
  if '0' ≤ c ∧ c ≤ '9' then some (c.toNat - 48)
  else if 'a' ≤ c ∧ c ≤ 'f' then some (c.toNat - 87)
  else if 'A' ≤ c ∧ c ≤ 'F' then some (c.toNat - 55)
  else none

/-- Body of a JSON string, after the opening quote: collected characters
and the remainder after the closing quote. -/
def parseStringBody : List Char → Option (List Char × List Char)
  | [] => none
  | '"' :: rest => some ([], rest)
  | '\\' :: 'u' :: a :: b :: c :: d :: rest =>
    match hexVal a, hexVal b, hexVal c, hexVal d with
    | some ha, some hb, some hc, some hd =>
      let code := ((ha * 16 + hb) * 16 + hc) * 16 + hd
      (parseStringBody rest).map (fun r => (Char.ofNat code :: r.1, r.2))
    | _, _, _, _ => none
  | '\\' :: e :: rest =>
    let esc : Option Char :=
      if e == '"' then some '"'
      else if e == '\\' then some '\\'
      else if e == '/' then some '/'
      else if e == 'b' then some '\x08'
      else if e == 'f' then some '\x0c'
      else if e == 'n' then some '\n'
      else if e == 'r' then some '\r'
      else if e == 't' then some '\t'
      else none
    match esc with
    | some c => (parseStringBody rest).map (fun r => (c :: r.1, r.2))
    | none => none
  | c :: rest =>
    if c.toNat < 32 then none
    else (parseStringBody rest).map (fun r => (c :: r.1, r.2))

/-- A JSON number: `-?(0|[1-9]\d*)(\.\d+)?([eE][+-]?\d+)?`. -/
def parseNumber (cs : List Char) : Option (ℚ × List Char) :=
  let (neg, cs1) :=
    match cs with
    | '-' :: r => (true, r)
    | _ => (false, cs)
  let intDs := cs1.takeWhile isDigitChar
  let cs2 := cs1.dropWhile isDigitChar
  if intDs.isEmpty then none
  else if intDs.head? = some '0' ∧ intDs.length ≠ 1 then none
  else
    let mantInt : ℚ := (digitsVal intDs : ℚ)
    let fracStep : Option (ℚ × List Char) :=
      match cs2 with
      | '.' :: r =>
        let fds := r.takeWhile isDigitChar
        if fds.isEmpty then none
        else some (mantInt + (digitsVal fds : ℚ) / ((10 : ℚ) ^ fds.length),
                   r.dropWhile isDigitChar)
      | _ => some (mantInt, cs2)
    match fracStep with
    | none => none
    | some (mant, cs3) =>
      let expStep : Option (ℚ × List Char) :=
        match cs3 with
        | e :: r =>
          if e == 'e' || e == 'E' then
            let (esign, r1) :=
              match r with
              | '+' :: r2 => ((1 : ℤ), r2)
              | '-' :: r2 => ((-1 : ℤ), r2)
              | _ => ((1 : ℤ), r)
            let eds := r1.takeWhile isDigitChar
            if eds.isEmpty then none
            else some (mant * (10 : ℚ) ^ (esign * (digitsVal eds : ℤ)),
                       r1.dropWhile isDigitChar)
          else some (mant, cs3)
        | [] => some (mant, cs3)
      match expStep with
      | none => none
      | some (q, cs4) => some ((if neg then -q else q), cs4)

mutual

/-- One JSON value, starting at (possibly whitespace-preceded) `cs`. -/
def parseJsonValue : Nat → List Char → Option (JsValue × List Char)
  | 0, _ => none
  | Nat.succ fuel, cs =>
    match skipJsonWs cs with
    | '\x7b' :: rest => parseObjRest fuel [] true rest
    | '[' :: rest => parseArrRest fuel [] true rest
    | '"' :: rest =>
      (parseStringBody rest).map (fun r => (.str (String.mk r.1), r.2))
    | 't' :: 'r' :: 'u' :: 'e' :: rest => some (.bool true, rest)
    | 'f' :: 'a' :: 'l' :: 's' :: 'e' :: rest => some (.bool false, rest)
    | 'n' :: 'u' :: 'l' :: 'l' :: rest => some (.null, rest)
    | other => (parseNumber other).map (fun r => (.num r.1, r.2))

/-- Members of an object after `{`; `first` is true before any pair. -/
def parseObjRest : Nat → List (String × JsValue) → Bool → List Char →
    Option (JsValue × List Char)
  | 0, _, _, _ => none
  | Nat.succ fuel, acc, first, cs =>
    match skipJsonWs cs with
    | '\x7d' :: rest =>
      if first then some (.obj acc.reverse, rest) else none
    | '"' :: rest =>
      match parseStringBody rest with
      | none => none
      | some (key, afterKey) =>
        match skipJsonWs afterKey with
        | ':' :: afterColon =>
          match parseJsonValue fuel afterColon with
          | none => none
          | some (v, afterVal) =>
            match skipJsonWs afterVal with
            | ',' :: afterComma =>
              parseObjRest fuel ((String.mk key, v) :: acc) false afterComma
            | '\x7d' :: rest2 => some (.obj (((String.mk key, v) :: acc)).reverse, rest2)
            | _ => none
        | _ => none
    | _ => none

/-- Elements of an array after `[`; `first` is true before any element. -/
def parseArrRest : Nat → List JsValue → Bool → List Char →
    Option (JsValue × List Char)
  | 0, _, _, _ => none
  | Nat.succ fuel, acc, first, cs =>
    match skipJsonWs cs with
    | ']' :: rest =>
      if first then some (.arr acc.reverse, rest) else none
    | other =>
      match parseJsonValue fuel other with
      | none => none
      | some (v, afterVal) =>
        match skipJsonWs afterVal with
        | ',' :: afterComma => parseArrRest fuel (v :: acc) false afterComma
        | ']' :: rest2 => some (.arr ((v :: acc)).reverse, rest2)
        | _ => none

end

/-- `JSON.parse`: parse one value and require only whitespace after it.
The fuel bound exceeds the number of parser steps possible on the
input, so exhaustion is unreachable. -/
def jsonParse (s : String) : Option JsValue :=
  match parseJsonValue (4 * s.data.length + 16) s.data with
  | some (v, rest) => if (skipJsonWs rest).isEmpty then some v else none
  | none => none

/-- `normalizeJsonText` from the route file: typographic quotes to plain
quotes, strip BOM characters, trim. -/
def normalizeJsonText (s : String) : String :=
  let mapped := s.data.map (fun c =>
    if c == Char.ofNat 0x201C || c == Char.ofNat 0x201D then '"'
    else if c == Char.ofNat 0x2018 || c == Char.ofNat 0x2019 then '\''
    else c)
  trimJS (String.mk (mapped.filter (fun c => !(c == Char.ofNat 0xfeff))))

/-- `attemptParse` from the route handler.  `jsonrepair` is an external
library, modelled as the oracle `repair` (`none` models a repair
exception); a `JSON.parse` failure is `none`. -/
def attemptParse (repair : String → Option String) (payload : String) :
    Option JsValue :=
  let normalized := normalizeJsonText payload
  match jsonParse normalized with
  | some v => some v
  | none =>
    match repair normalized with
    | some repaired => jsonParse repaired
    | none => none

/-- The backtick character. -/
def btChar : Char := Char.ofNat 96

/-- Suffix following the first occurrence of three consecutive backticks. -/
def splitAtTriple : List Char → Option (List Char)
  | a :: b :: c :: r =>
    if a == btChar && b == btChar && c == btChar then some r
    else splitAtTriple (b :: c :: r)
  | _ => none

/-- Content before the next occurrence of three consecutive backticks
(`none` when the fence is never closed). -/
def untilTriple : List Char → Option (List Char)
  | a :: b :: c :: r =>
    if a == btChar && b == btChar && c == btChar then some []
    else (untilTriple (b :: c :: r)).map (a :: ·)
  | _ => none

/-- The optional case-insensitive `json` tag after an opening fence. -/
def stripJsonTag : List Char → List Char
  | j :: s :: o :: n :: r =>
    if j.toLower == 'j' && s.toLower == 's' && o.toLower == 'o' &&
        n.toLower == 'n' then r
    else j :: s :: o :: n :: r
  | cs => cs

/-- The capture of `/```(?:json)?\s*([\s\S]*?)```/i`: the pattern's
backtracking can never rescue a failed leftmost opening fence, so the
deterministic first-fence scan is equivalent. -/
def fenceInner (cs : List Char) : Option (List Char) :=
  (splitAtTriple cs).bind fun afterOpen =>
    untilTriple ((stripJsonTag afterOpen).dropWhile isJsWs)

/-- `indexOf("{")` / `lastIndexOf("}")` slice of the extractor. -/
def braceSlice (cs : List Char) : Option (List Char) :=
  match cs.findIdx? (fun c => c == Char.ofNat 0x7b),
      (cs.reverse.findIdx? (fun c => c == Char.ofNat 0x7d)) with
  | some firstBrace, some revIdx =>
    let lastBrace := cs.length - 1 - revIdx
    if firstBrace < lastBrace then
      some ((cs.drop firstBrace).take (lastBrace + 1 - firstBrace))
    else none
  | _, _ => none

/-- `extractJsonPayload` from the route handler: direct parse, then the
fenced block, then the first-to-last-brace slice; each candidate's
result is kept only when truthy (`if (direct)` etc.). -/
def extractJsonPayload (repair : String → Option String) (content : String) :
    Option JsValue :=
  let trimmed := normalizeJsonText content
  let direct := attemptParse repair trimmed
  if truthyOpt direct then direct
  else
    let viaFence : Option JsValue :=
      match fenceInner trimmed.data with
      | some inner =>
        let fenced := attemptParse repair (trimJS (String.mk inner))
        if truthyOpt fenced then fenced else none
      | none => none
    match viaFence with
    | some v => some v
    | none =>
      match braceSlice trimmed.data with
      | some sl =>
        let parsedSlice := attemptParse repair (String.mk sl)
        if truthyOpt parsedSlice then parsedSlice else none
      | none => none

/-! ## Generated payload validator and POST orchestration (route file) -/

/-- JS property access `value.name` on a parsed JSON value: objects use
their last binding for duplicate keys; arrays and primitives have no
such own property (`undefined`, i.e. `none`). -/
def getField (v : JsValue) (name : String) : Option JsValue :=
  match v with
  | .obj fields => (fields.reverse.find? (fun kv => kv.1 == name)).map (·.2)
  | _ => none

/-- `typeof v === "object"` (true for objects, arrays and `null`). -/
def jsTypeofObject : JsValue → Bool
  | .null => true
  | .arr _ => true
  | .obj _ => true
  | _ => false

/-- `validateGeneratedPayload` from the route file, with `throw`
modelled as `Except.error` of the thrown message. -/
def validateGeneratedPayload (payload : JsValue) (requireSourceDigest : Bool) :
    Except String Unit :=
  if !(truthy payload) || !(jsTypeofObject payload) then
    .error "AI 未返回有效的 JSON 结构。"
  else
    match getField payload "phases" with
    | some (.arr phases) =>
      if phases.length < 5 ∨ 10 < phases.length then
        .error "AI 返回的阶段数量不在 5-10 段之间。"
      else if requireSourceDigest then
        match getField payload "source_digest" with
        | some (.str digest) =>
          if (trimJS digest).length < 20 then
            .error "AI 未基于参考资料输出 source_digest。"
          else .ok ()
        | _ => .error "AI 未基于参考资料输出 source_digest。"
      else .ok ()
    | _ => .error "AI 未返回 phases 字段。"

/-- Outcome of one generator call: a non-2xx transport failure with its
body, or a 2xx response carrying `choices?.[0]?.message?.content ?? null`. -/
inductive GenResp where
  | httpError (details : String)
  | okResp (content : Option String)

/-- The strict-JSON reinforcement appended on the second attempt. -/
def strictJsonHint : String :=
  "\n\n请严格按照上述 JSON 结构输出，禁止使用 Markdown 代码块或添加任何解释性文字。"

/-- The user prompt of a given attempt (`base` stands for
`USER_PROMPT_TEMPLATE(query, promptContext)`, whose text does not
influence the control flow). -/
def userPromptFor (base : String) (attempt : Nat) : String :=
  if attempt == 1 then base ++ strictJsonHint else base

/-- How the `for (attempt …)` loop ended. -/
inductive LoopExit where
  | transport (details : String)
  | recovered (v : JsValue) (attempt : Nat)
  | exhausted

/-- The retry loop of `POST`, with `remaining = 2 - attempt` as fuel;
returns the exit and the number of generator calls made.  The
`if (parsed) break` truthiness test coincides with `isSome` because
`extractJsonPayload` only ever returns truthy values. -/
def generationLoop (repair : String → Option String) (oracle : Nat → GenResp) :
    Nat → Nat → LoopExit × Nat
  | 0, _ => (.exhausted, 0)
  | Nat.succ remaining, attempt =>
    match oracle attempt with
    | .httpError d => (.transport d, 1)
    | .okResp none =>
      let r := generationLoop repair oracle remaining (attempt + 1)
      (r.1, r.2 + 1)
    | .okResp (some content) =>
      match extractJsonPayload repair content with
      | some v => (.recovered v attempt, 1)
      | none =>
        let r := generationLoop repair oracle remaining (attempt + 1)
        (r.1, r.2 + 1)

/-- The HTTP outcome of `POST` (success carries the parsed payload that
gets enriched and returned). -/
inductive PostResult where
  | errorResp (status : Nat) (message : String)
  | success (v : JsValue)

/-- The error body of the unparseable-after-retry failure. -/
def unparseableMessage : String :=
  "AI 返回内容无法解析，请稍后重试（系统已自动重试一次）。"

/-- The error body of a transport failure. -/
def upstreamMessage : String := "DeepSeek 接口暂时不可用，请稍后重试。"

/-- Instrumented result of the generation part of `POST`. -/
structure PostOutcome where
  result : PostResult
  generatorCalls : Nat
  validatorInvoked : Bool

/-- The generation/validation core of `POST`, after ingestion: two
bounded attempts, then validation of a recovered object. -/
def postGenerate (repair : String → Option String) (oracle : Nat → GenResp)
    (requireSourceDigest : Bool) : PostOutcome :=
  match generationLoop repair oracle 2 0 with
  | (.transport _, n) => ⟨.errorResp 502 upstreamMessage, n, false⟩
  | (.exhausted, n) => ⟨.errorResp 502 unparseableMessage, n, false⟩
  | (.recovered v _, n) =>
    match validateGeneratedPayload v requireSourceDigest with
    | .error m => ⟨.errorResp 502 m, n, true⟩
    | .ok _ => ⟨.success v, n, true⟩

/-! ## Reference ingestion (route file) -/

/-- Kind tag of a reference entry. -/
inductive RefType where
  | text
  | url
  | file
deriving DecidableEq, Repr

/-- `ReferenceEntry` from the route file. -/
structure ReferenceEntry where
  type : RefType
  content : String
  source : String
deriving DecidableEq, Repr

/-- The status of a `ReferenceResult` (`partialStatus` stands for the
source's `"partial"`, which cannot be a Lean identifier). -/
inductive IngestStatus where
  | empty
  | success
  | partialStatus
  | failed
deriving DecidableEq, Repr

/-- `ReferenceResult` from the route file. -/
structure ReferenceResult where
  status : IngestStatus
  references : List ReferenceEntry
  errors : List String
deriving Repr

/-- One uploaded document, with its external parser's behaviour: `size`
is the decoded byte length of the base64 payload, `rawText` the text
produced by the PDF/word/utf-8 decoder (`none` models a decoder
exception).  `declaredType` only selects the decoder and is carried for
completeness. -/
structure DocSource where
  name : String
  declaredType : Option String
  size : Nat
  rawText : Option String
deriving Repr

/-- `extractTextFromDocument` from the route file. -/
def extractTextFromDocument (doc : DocSource) : Except String String :=
  if doc.size = 0 then .error ("文件内容为空：" ++ doc.name)
  else if doc.size > MAX_UPLOAD_BYTES then .error ("文件超过 2MB 限制：" ++ doc.name)
  else
    match doc.rawText with
    | none => .error ("无法解析文件：" ++ doc.name)
    | some raw =>
      let normalized := normalizeWhitespace raw
      if normalized.length = 0 then .error ("文件内容为空：" ++ doc.name)
      else .ok normalized

/-- One reference URL, with the network's behaviour: `none` models a
fetch exception, otherwise the status code and the text already run
through `extractMainTextFromHtml` (an external HTML-heuristic whose
output is the oracle). -/
structure LinkSource where
  url : String
  response : Option (Nat × String)
deriving Repr

/-- `fetchLinkContent` from the route file (`response.ok` is
`200 ≤ status ≤ 299`). -/
def fetchLinkContent (link : LinkSource) : Except String String :=
  match link.response with
  | none => .error ("无法访问链接：" ++ link.url)
  | some (status, extracted) =>
    if !(200 ≤ status && status ≤ 299) then
      .error ("链接响应 " ++ toString status ++ "：" ++ link.url)
    else if extracted = "" then .error ("链接内容为空或被限制：" ++ link.url)
    else .ok extracted

/-- `pushReference`: the per-entry truncation to `MAX_REFERENCE_CHARS`. -/
def pushLimit (e : ReferenceEntry) : ReferenceEntry :=
  { e with content := truncateText e.content MAX_REFERENCE_CHARS }

/-- The `for (const doc of documents)` loop: entries of the successful
extractions and one error message per failed one, in submission order. -/
def ingestDocs : List DocSource → List ReferenceEntry × List String
  | [] => ([], [])
  | d :: rest =>
    let r := ingestDocs rest
    match extractTextFromDocument d with
    | .ok t => (pushLimit ⟨.file, t, d.name⟩ :: r.1, r.2)
    | .error e => (r.1, e :: r.2)

/-- The `for (const link of links)` loop. -/
def ingestLinks : List LinkSource → List ReferenceEntry × List String
  | [] => ([], [])
  | l :: rest =>
    let r := ingestLinks rest
    match fetchLinkContent l with
    | .ok t => (pushLimit ⟨.url, t, l.url⟩ :: r.1, r.2)
    | .error e => (r.1, e :: r.2)

/-- `ingestReferences` from the route file.  The mutable accumulators
(`references`, `partialErrors`, `hadInput`) are reconstituted from the
three independent source groups, preserving the processing order
text → documents → links. -/
def ingestReferences (supplementalText : Option String)
    (documents : List DocSource) (links : List LinkSource) : ReferenceResult :=
  let textBlock := trimJS (supplementalText.getD "")
  let textRefs :=
    if textBlock ≠ "" then [pushLimit ⟨.text, textBlock, "user_input"⟩] else []
  let docPart := ingestDocs documents
  let linkPart := ingestLinks links
  let references := textRefs ++ docPart.1 ++ linkPart.1
  let partialErrors := docPart.2 ++ linkPart.2
  let hadInput := textBlock != "" || !documents.isEmpty || !links.isEmpty
  if !hadInput then ⟨.empty, [], []⟩
  else if references.isEmpty then
    ⟨.failed, [],
      if partialErrors.length > 0 then partialErrors
      else ["提供的资料为空或无法解析。"]⟩
  else
    ⟨if partialErrors.length > 0 then .partialStatus else .success,
      references, partialErrors⟩

/-! ## Spec-side definitions

These few definitions are written from the specification's words (not
from the source); the claims compare the embedded source functions
against them. -/

/-- Modelled from the spec §3: status as a pure function of (any
evidence submitted?, any entry succeeded?, any entry failed?). -/
def specStatus (attempted : Bool) (succeeded failed : Nat) : IngestStatus :=
  if !attempted then .empty
  else if succeeded = 0 then .failed
  else if 0 < failed then .partialStatus
  else .success

/-- Was any evidence source attempted? -/
def anyAttempted (supplementalText : Option String) (documents : List DocSource)
    (links : List LinkSource) : Bool :=
  trimJS (supplementalText.getD "") != "" || !documents.isEmpty || !links.isEmpty

/-- Is an ingestion outcome a success? -/
def isOkE (e : Except String String) : Bool :=
  match e with
  | .ok _ => true
  | .error _ => false

/-- Number of sources that produced an entry. -/
def succCount (supplementalText : Option String) (documents : List DocSource)
    (links : List LinkSource) : Nat :=
  (if trimJS (supplementalText.getD "") ≠ "" then 1 else 0) +
  (documents.filter (fun d => isOkE (extractTextFromDocument d))).length +
  (links.filter (fun l => isOkE (fetchLinkContent l))).length

/-- Number of sources that failed. -/
def failCount (documents : List DocSource) (links : List LinkSource) : Nat :=
  (documents.filter (fun d => !isOkE (extractTextFromDocument d))).length +
  (links.filter (fun l => !isOkE (fetchLinkContent l))).length

/-- The candidate texts of the extractor cascade, in attempt order
(spec §4.4: direct, fenced block, brace slice). -/
def candidatesOf (trimmed : String) : List String :=
  [trimmed] ++
  (match fenceInner trimmed.data with
   | some inner => [trimJS (String.mk inner)]
   | none => []) ++
  (match braceSlice trimmed.data with
   | some sl => [String.mk sl]
   | none => [])

/-- Modelled from the spec §4.4 and the amended C7 reading: the first
candidate whose (strict-then-repaired) parse yields a truthy value. -/
def firstTruthyParse (repair : String → Option String) :
    List String → Option JsValue
  | [] => none
  | c :: rest =>
    let r := attemptParse repair c
    if truthyOpt r then r else firstTruthyParse repair rest

/-! ## Auxiliary definitions for the theorems -/

/-- Invariant of `buildAreaData`'s state while no NaN has been produced:
`lastTime` is a finite number, point times are strictly increasing under
the JS `<`, and every point time is finite and bounded by `lastTime`. -/
def StateOK (st : BuildState) : Prop :=
  ∃ L : Int, st.lastTime = some L ∧
    ((st.points.map ChartPoint.time).Pairwise (fun a b => jsLt a b = true)) ∧
    ∀ p ∈ st.points, ∃ x : Int, p.time = some x ∧ x ≤ L

/-- Discontinuity between two consecutive phases (the `shouldBridge`
condition of `buildAreaData`). -/
def isBridge (pv ph : Phase) : Bool :=
  decide (pv.end_year ≠ ph.start_year ∨ pv.close ≠ ph.«open»)

/-- Number of discontinuous consecutive joins in a phase sequence. -/
def discontCount : List Phase → Nat
  | pv :: ph :: rest => (if isBridge pv ph then 1 else 0) + discontCount (ph :: rest)
  | _ => 0

/-- Number of points `buildAreaGo` emits for the remaining phases given
the previous phase. -/
def emitCount : Option Phase → List Phase → Nat
  | _, [] => 0
  | none, ph :: rest => 2 + emitCount (some ph) rest
  | some pv, ph :: rest => (if isBridge pv ph then 2 else 1) + emitCount (some ph) rest

/-- A boundary label resolved by the localized ordinal rule: the three
earlier rules fail and the ordinal rule extracts `n`. -/
def cnResolved (s : String) (n : Nat) : Prop :=
  matchQuarter (trimJS s).data = none ∧ matchYear (trimJS s).data = none ∧
  matchCnOrdinal (trimJS s).data = some n

/-- A string boundary label handled by one of the string-regex year
rules: the year+quarter rule, or — quarter failing — the plain/embedded
four-digit-year rule (both regexes only accept years 1900–2099).  The
plain-year rule for a numeric label is the separate `YLabel.num` branch
of `yearToTimestamp`, deliberately not included here: the amended C4
treats it separately, because ordinals do collide with it. -/
def strYearRuleResolved (s : String) : Prop :=
  (∃ p, matchQuarter (trimJS s).data = some p) ∨
  (matchQuarter (trimJS s).data = none ∧ ∃ y, matchYear (trimJS s).data = some y)

/-- A repair oracle that never helps (every repair attempt throws). -/
def noRepair : String → Option String := fun _ => none

/-- A payload with `n` phases and nothing else. -/
def phasesOnlyPayload (n : Nat) : JsValue :=
  .obj [("phases", .arr (List.replicate n .null))]

/-- A 21-character digest that is almost entirely whitespace. -/
def wsDigest : String := String.mk (List.replicate 19 '\x20') ++ "ab"

/-- A 5-phase payload whose `source_digest` has 21 characters but only
2 after trimming. -/
def wsDigestPayload : JsValue :=
  .obj [("phases", .arr (List.replicate 5 .null)), ("source_digest", .str wsDigest)]

/-- A phase with the given boundary labels and open/close values. -/
def mkPhase (sy ey : String) (o c : ℚ) : Phase :=
  { start_year := .str sy, end_year := .str ey, «open» := o,
    high := max o c, low := min o c, close := c, label := "",
    key_events := [], relation_note := none, zone := none }

/-- Six phases whose joins are all continuous except the third→fourth
one (close 40 vs open 45). -/
def sixPhases : List Phase :=
  [mkPhase "2001" "2002" 10 20, mkPhase "2002" "2003" 20 30,
   mkPhase "2003" "2004" 30 40, mkPhase "2004" "2005" 45 50,
   mkPhase "2005" "2006" 50 60, mkPhase "2006" "2007" 60 70]

/-- A document whose decoder succeeds. -/
def docOk : DocSource := ⟨"a.txt", none, 10, some "hello world"⟩

/-- A document whose decoder throws. -/
def docBad : DocSource := ⟨"b.pdf", none, 10, none⟩

/-- A link that fetches fine. -/
def linkOk : LinkSource := ⟨"https://x", some (200, "content")⟩

/-- A link that answers 404. -/
def linkBad : LinkSource := ⟨"https://y", some (404, "")⟩

/-- A generator that always answers text with no recoverable JSON. -/
def oracleNoJson : Nat → GenResp := fun _ => .okResp (some "no json here")

/-- An axis descriptor with no `kind`. -/
def axisNoKind : AxisMeta := ⟨"momentum", none, none, none, none⟩

/-- An axis descriptor of each literal kind. -/
def axisSubjective : AxisMeta := ⟨"intensity", none, some "subjective", none, none⟩

/-- An objective axis descriptor. -/
def axisObjective : AxisMeta := ⟨"index", none, some "objective", none, none⟩

/-- A phase with out-of-range values (open 150, low −20). -/
def samplePhase : Phase := mkPhase "2001" "2002" 150 (-20)

/-- A phase whose boundary label is an ordinal so large that the
synthetic year 2000+N exceeds the clip range of `Date.UTC`. -/
def nanPhase : Phase := mkPhase "第999999季" "第999999季" 10 20

/-! # Theorems -/

/-! ## Transformer monotonicity (C1) and point counting (C8) -/

theorem pushPoint_lastTime_gt (st : BuildState) (x : Int) (v : ℚ) (ph : Phase)
    (lbl : String) (L : Int) (hL : st.lastTime = some L) :
    ∃ T : Int, (pushPoint st (some x) v ph lbl).lastTime = some T ∧ L < T := by
  unfold pushPoint
  dsimp only
  rw [hL]
  by_cases hle : x ≤ L
  · refine ⟨L + 24 * 60 * 60, ?_, by omega⟩
    simp [jsLe, jsAdd, hle]
  · refine ⟨x, ?_, by omega⟩
    simp [jsLe, jsAdd, hle]

theorem pushPoint_points_eq (st : BuildState) (t : Option Int) (v : ℚ)
    (ph : Phase) (lbl : String) : (pushPoint st t v ph lbl).points =
      st.points ++ [⟨(pushPoint st t v ph lbl).lastTime, v, ph⟩] := rfl

theorem pushPoint_stateOK (st : BuildState) (t : Option Int) (v : ℚ) (ph : Phase)
    (lbl : String) (ht : t.isSome = true) (h : StateOK st) :
    StateOK (pushPoint st t v ph lbl) := by
  obtain ⟨x, rfl⟩ := Option.isSome_iff_exists.mp ht
  obtain ⟨L, hL, hp, hb⟩ := h
  obtain ⟨T, hT, hLT⟩ := pushPoint_lastTime_gt st x v ph lbl L hL
  refine ⟨T, hT, ?_, ?_⟩
  · rw [pushPoint_points_eq, List.map_append, List.pairwise_append]
    refine ⟨hp, by simp, ?_⟩
    intro a ha b hbm
    simp only [List.map_cons, List.map_nil, List.mem_singleton] at hbm
    subst hbm
    obtain ⟨p, hpm, rfl⟩ := List.mem_map.mp ha
    obtain ⟨y, hy, hyL⟩ := hb p hpm
    show jsLt p.time _ = true
    rw [hy, hT]
    simp only [jsLt, decide_eq_true_eq]
    omega
  · intro p hpm
    rw [pushPoint_points_eq] at hpm
    rcases List.mem_append.mp hpm with h1 | h2
    · obtain ⟨y, hy, hyL⟩ := hb p h1
      exact ⟨y, hy, by omega⟩
    · simp only [List.mem_singleton] at h2
      subst h2
      exact ⟨T, hT, le_refl T⟩

/-- The branch a string label takes in `yearToTimestamp` does not depend
on the index, and the fallback branch is never NaN, so finiteness of the
resolved timestamp is index-independent. -/
theorem yearToTimestamp_isSome_idx (l : YLabel) (i : Nat) :
    (yearToTimestamp l i).isSome = (yearToTimestamp l 0).isSome := by
  cases l with
  | num y => rfl
  | str s =>
    unfold yearToTimestamp
    rcases h1 : matchQuarter (trimJS s).data with - | p <;>
      rcases h2 : matchYear (trimJS s).data with - | y <;>
      rcases h3 : matchCnOrdinal (trimJS s).data with - | n3 <;>
      rcases h4 : matchEnOrdinal (trimJS s).data with - | n4 <;>
      rcases h5 : matchNumeric (trimJS s).data with - | n5 <;>
      simp [h1, h2, h3, h4, h5, jsAdd]

theorem buildAreaGo_stateOK : ∀ (phs : List Phase) (prev : Option Phase)
    (idx : Nat) (st : BuildState), StateOK st →
    (∀ ph ∈ phs, ∀ i : Nat, (yearToTimestamp ph.start_year i).isSome = true ∧
       (yearToTimestamp ph.end_year i).isSome = true) →
    StateOK (buildAreaGo prev idx st phs) := by
  intro phs
  induction phs with
  | nil =>
    intro prev idx st h _
    cases prev <;> exact h
  | cons ph rest ih =>
    intro prev idx st h hres
    have hhd := hres ph (List.mem_cons_self ph rest)
    have hrest : ∀ q ∈ rest, ∀ i : Nat,
        (yearToTimestamp q.start_year i).isSome = true ∧
        (yearToTimestamp q.end_year i).isSome = true :=
      fun q hq => hres q (List.mem_cons_of_mem ph hq)
    cases prev with
    | none =>
      exact ih _ _ _ (pushPoint_stateOK _ _ _ _ _ (hhd (idx + 1)).2
        (pushPoint_stateOK _ _ _ _ _ (hhd idx).1 h)) hrest
    | some pv =>
      simp only [buildAreaGo]
      split
      · exact ih _ _ _ (pushPoint_stateOK _ _ _ _ _ (hhd (idx + 1)).2
          (pushPoint_stateOK _ _ _ _ _ (hhd idx).1 h)) hrest
      · exact ih _ _ _ (pushPoint_stateOK _ _ _ _ _ (hhd (idx + 1)).2 h) hrest

/-- C1 (amended): when every boundary label of the sequence resolves to
a finite timestamp (inside the TimeClip range of `Date.UTC`, so no NaN
arises), the emitted point timestamps of `buildAreaData` are strictly
increasing under the JS `<`: a computed timestamp that does not strictly
exceed the previous emitted one is replaced by the previous timestamp
plus one day (86400 s), and one strictly above is kept.  (Without the
finiteness hypothesis the property fails: a label beyond the clip range
makes `Date.UTC` return NaN, `NaN <= x` is false, so `pushPoint` emits
the NaN unreplaced — see the counterexample.) -/
theorem buildAreaData_times_strictMono :
    (∀ phases : List Phase,
       (∀ ph ∈ phases, (yearToTimestamp ph.start_year 0).isSome = true ∧
          (yearToTimestamp ph.end_year 0).isSome = true) →
       ((buildAreaData phases).points.map ChartPoint.time).Pairwise
         (fun a b => jsLt a b = true)) ∧
    (∀ (st : BuildState) (t : Option Int) (v : ℚ) (ph : Phase) (lbl : String),
       jsLe t st.lastTime = true →
       (pushPoint st t v ph lbl).lastTime = jsAdd st.lastTime 86400) ∧
    (∀ (st : BuildState) (t : Option Int) (v : ℚ) (ph : Phase) (lbl : String),
       jsLe t st.lastTime = false →
       (pushPoint st t v ph lbl).lastTime = t) := by
  refine ⟨?_, ?_, ?_⟩
  · intro phases h0
    unfold buildAreaData
    split
    · simp
    · obtain ⟨L, _, hp, _⟩ := buildAreaGo_stateOK phases none 0 ⟨[], [], some 0⟩
        ⟨0, rfl, by simp, by simp⟩
        (fun ph hm i => ⟨by rw [yearToTimestamp_isSome_idx]; exact (h0 ph hm).1,
          by rw [yearToTimestamp_isSome_idx]; exact (h0 ph hm).2⟩)
      exact hp
  · intro st t v ph lbl h
    unfold pushPoint
    dsimp only
    rw [if_pos h]
    have h86 : (24 * 60 * 60 : Int) = 86400 := by norm_num
    rw [h86]
  · intro st t v ph lbl h
    unfold pushPoint
    dsimp only
    rw [if_neg (by rw [h]; exact Bool.false_ne_true)]

/-- C1 witness: the amended monotonicity theorem applied to the concrete
phase list `sixPhases` (whose labels 2001–2007 all resolve inside the
clip range), and the one-day replacement applied to a state whose
`lastTime` already reaches the computed time. -/
theorem buildAreaData_times_strictMono_witness :
    ((∀ ph ∈ sixPhases, (yearToTimestamp ph.start_year 0).isSome = true ∧
        (yearToTimestamp ph.end_year 0).isSome = true) ∧
     ((buildAreaData sixPhases).points.map ChartPoint.time).Pairwise
       (fun a b => jsLt a b = true)) ∧
    (jsLe (some 0) (BuildState.mk [] [] (some 0)).lastTime = true ∧
     (pushPoint ⟨[], [], some 0⟩ (some 0) 0 samplePhase "").lastTime =
       jsAdd (some 0) 86400) :=
  ⟨⟨by decide, buildAreaData_times_strictMono.1 sixPhases (by decide)⟩,
   by decide,
   buildAreaData_times_strictMono.2.1 ⟨[], [], some 0⟩ (some 0) 0 samplePhase ""
     (by decide)⟩

/-- C1 counterexample: on the phase whose ordinal label 第999999季
resolves to year 1001999, `Date.UTC` yields NaN; `pushPoint` does not
replace it (JS `NaN <= 0` is false), both emitted points carry NaN, and
the time axis is not strictly increasing. -/
theorem buildAreaData_times_nan_counterexample :
    yearToTimestamp nanPhase.start_year 0 = none ∧
    (pushPoint ⟨[], [], some 0⟩ (yearToTimestamp nanPhase.start_year 0) 0
        nanPhase "").lastTime = none ∧
    (buildAreaData [nanPhase]).points.map ChartPoint.time = [none, none] ∧
    ¬ ((buildAreaData [nanPhase]).points.map ChartPoint.time).Pairwise
        (fun a b => jsLt a b = true) := by
  refine ⟨by decide, by decide, by decide, ?_⟩
  intro hpw
  rw [(by decide : (buildAreaData [nanPhase]).points.map ChartPoint.time =
    ([none, none] : List (Option Int)))] at hpw
  rcases hpw with - | ⟨hrel, -⟩
  have := hrel none (List.mem_singleton.mpr rfl)
  simp [jsLt] at this

theorem pushPoint_points_length (st : BuildState) (t : Option Int) (v : ℚ) (ph : Phase)
    (lbl : String) : (pushPoint st t v ph lbl).points.length =
      st.points.length + 1 := by
  rw [pushPoint_points_eq, List.length_append]
  rfl

theorem buildAreaGo_points_length : ∀ (phs : List Phase) (prev : Option Phase)
    (idx : Nat) (st : BuildState),
    (buildAreaGo prev idx st phs).points.length =
      st.points.length + emitCount prev phs := by
  intro phs
  induction phs with
  | nil =>
    intro prev idx st
    cases prev <;> simp [buildAreaGo, emitCount]
  | cons ph rest ih =>
    intro prev idx st
    cases prev with
    | none =>
      show (buildAreaGo (some ph) (idx + 1) _ rest).points.length = _
      rw [ih, pushPoint_points_length, pushPoint_points_length]
      simp [emitCount]
      omega
    | some pv =>
      simp only [buildAreaGo]
      split
      next hbr =>
        rw [ih, pushPoint_points_length, pushPoint_points_length]
        have hb : isBridge pv ph = true := decide_eq_true hbr
        simp only [emitCount, hb, if_true]
        omega
      next hbr =>
        rw [ih, pushPoint_points_length]
        have hb : isBridge pv ph = false := decide_eq_false hbr
        simp only [emitCount, hb]
        simp
        omega

theorem emitCount_some_eq : ∀ (phs : List Phase) (pv : Phase),
    emitCount (some pv) phs = phs.length + discontCount (pv :: phs) := by
  intro phs
  induction phs with
  | nil => intro pv; simp [emitCount, discontCount]
  | cons ph rest ih =>
    intro pv
    simp only [emitCount, discontCount, ih ph, List.length_cons]
    rcases Bool.eq_false_or_eq_true (isBridge pv ph) with hb | hb <;>
      simp [hb] <;> omega

theorem emitCount_none_eq (ph : Phase) (rest : List Phase) :
    emitCount none (ph :: rest) = (ph :: rest).length + 1 + discontCount (ph :: rest) := by
  simp only [emitCount, emitCount_some_eq, List.length_cons, discontCount]
  omega

/-- C8 (amended): for a 6-phase sequence with exactly one discontinuous
consecutive join, `buildAreaData` emits exactly 8 points — the initial
start point, the single bridge start point, and the 6 end points. -/
theorem buildAreaData_six_one_discont (phases : List Phase)
    (h6 : phases.length = 6) (h1 : discontCount phases = 1) :
    (buildAreaData phases).points.length = 8 := by
  unfold buildAreaData
  cases phases with
  | nil => simp at h6
  | cons ph rest =>
    rw [if_neg (by simp)]
    rw [buildAreaGo_points_length, emitCount_none_eq]
    simp only [List.length_nil]
    omega

/-- C8 counterexample: the concrete 6-phase sequence `sixPhases` has
exactly one discontinuous join, yet `buildAreaData` emits 8 points, not
the 7 the claim states (phase 0 always gets a start point in addition
to the bridge and the 6 end points). -/
theorem buildAreaData_six_one_discont_counterexample :
    sixPhases.length = 6 ∧ discontCount sixPhases = 1 ∧
    (buildAreaData sixPhases).points.length ≠ 7 ∧
    (buildAreaData sixPhases).points.length = 8 := by
  refine ⟨rfl, by decide, ?_, ?_⟩ <;> decide

/-- C8 witness: the amended count theorem applied to `sixPhases`. -/
theorem buildAreaData_six_one_discont_witness :
    sixPhases.length = 6 ∧ discontCount sixPhases = 1 ∧
    (buildAreaData sixPhases).points.length = 8 :=
  ⟨rfl, by decide, buildAreaData_six_one_discont sixPhases rfl (by decide)⟩

/-! ## Axis-dependent clamping (C3) and the kind-absent asymmetry (C10) -/

theorem normalizePhases_true_eq (phases : List Phase) :
    normalizePhases phases true = phases.map (fun p =>
      { p with «open» := clampScore p.«open», high := clampScore p.high,
               low := clampScore p.low, close := clampScore p.close }) := by
  unfold normalizePhases
  cases phases <;> simp

theorem normalizePhases_false_eq (phases : List Phase) :
    normalizePhases phases false = phases := by
  unfold normalizePhases
  cases phases <;> simp

theorem clampScore_mem_Icc (v : ℚ) : 0 ≤ clampScore v ∧ clampScore v ≤ 100 :=
  ⟨le_min (le_max_right v 0) (by norm_num), min_le_right _ _⟩

/-- C3: with a subjective axis the pipeline clamp flag is on and
`normalizePhases` clamps all four phase values into [0,100] before
point construction (open 150 becomes 100, low −20 becomes 0); with an
objective axis the flag is off and the values pass through to point
construction unclamped. -/
theorem normalizePhases_axis_clamping :
    (∀ (meta : AxisMeta) (phases : List Phase), meta.kind = some "subjective" →
       shouldClamp (some meta) = true ∧
       normalizePhases phases (shouldClamp (some meta)) = phases.map (fun p =>
         { p with «open» := clampScore p.«open», high := clampScore p.high,
                  low := clampScore p.low, close := clampScore p.close })) ∧
    (∀ v : ℚ, 0 ≤ clampScore v ∧ clampScore v ≤ 100) ∧
    clampScore 150 = 100 ∧ clampScore (-20) = 0 ∧
    (∀ (meta : AxisMeta) (phases : List Phase), meta.kind = some "objective" →
       shouldClamp (some meta) = false ∧
       normalizePhases phases (shouldClamp (some meta)) = phases) := by
  refine ⟨?_, clampScore_mem_Icc, by decide, by decide, ?_⟩
  · intro meta phases hk
    have hc : shouldClamp (some meta) = true := by
      simp [shouldClamp, axisKind, hk]
    exact ⟨hc, by rw [hc, normalizePhases_true_eq]⟩
  · intro meta phases hk
    have hc : shouldClamp (some meta) = false := by
      simp [shouldClamp, axisKind, hk]
    exact ⟨hc, by rw [hc, normalizePhases_false_eq]⟩

/-- C3 witness: the clamping theorem applied at the concrete axes
`axisSubjective` / `axisObjective` and the phase list `[samplePhase]`. -/
theorem normalizePhases_axis_clamping_witness :
    shouldClamp (some axisSubjective) = true ∧
    shouldClamp (some axisObjective) = false ∧
    normalizePhases [samplePhase] (shouldClamp (some axisObjective)) =
      [samplePhase] ∧
    clampScore 150 = 100 := by
  have h := normalizePhases_axis_clamping
  exact ⟨(h.1 axisSubjective [samplePhase] rfl).1,
    (h.2.2.2.2 axisObjective [samplePhase] rfl).1,
    (h.2.2.2.2 axisObjective [samplePhase] rfl).2,
    h.2.2.1⟩

/-- C10: with an absent axis `kind` the pipeline is asymmetric: the
clamp decision treats the axis like a subjective one (clamping enabled,
since the flag is off only for the literal kind "objective"), while the
range computation treats it like an objective one (the fixed [0,100]
range is returned only for the literal kind "subjective"). -/
theorem axis_kind_absent_asymmetry :
    ∀ (meta : AxisMeta) (phases : List Phase), meta.kind = none →
      shouldClamp (some meta) = true ∧
      normalizePhases phases (shouldClamp (some meta)) =
        normalizePhases phases
          (shouldClamp (some { meta with kind := some "subjective" })) ∧
      computePhaseRange phases (some meta) =
        computePhaseRange phases (some { meta with kind := some "objective" }) ∧
      (phases ≠ [] →
        computePhaseRange phases (some { meta with kind := some "subjective" }) =
          some ⟨0, 100⟩) := by
  intro meta phases hk
  have hc : shouldClamp (some meta) = true := by
    simp [shouldClamp, axisKind, hk]
  have hcs : shouldClamp (some { meta with kind := some "subjective" }) = true := by
    simp [shouldClamp, axisKind]
  refine ⟨hc, by rw [hc, hcs], ?_, ?_⟩
  · simp [computePhaseRange, axisKind, hk]
  · intro hne
    have : phases.isEmpty = false := by
      cases phases
      · exact absurd rfl hne
      · rfl
    simp [computePhaseRange, axisKind, this]

/-- C10 witness: the asymmetry theorem at the concrete kindless axis
`axisNoKind` and phase list `[samplePhase]`. -/
theorem axis_kind_absent_asymmetry_witness :
    shouldClamp (some axisNoKind) = true ∧
    computePhaseRange [samplePhase] (some axisNoKind) =
      computePhaseRange [samplePhase]
        (some { axisNoKind with kind := some "objective" }) ∧
    computePhaseRange [samplePhase]
        (some { axisNoKind with kind := some "subjective" }) = some ⟨0, 100⟩ := by
  have h := axis_kind_absent_asymmetry axisNoKind [samplePhase] rfl
  exact ⟨h.1, h.2.2.1, h.2.2.2 (by simp)⟩

/-! ## Generated payload validator (C5) -/

/-- C5 (amended): the validator returns normally iff the payload is a
non-null object, `phases` is an array with length in [5,10], and — when
ingestion produced at least one reference entry — `source_digest` is a
string with at least 20 characters after trimming (the code measures
the trimmed digest, which is the one divergence from the claim as
stated); in particular 4 phases are rejected and exactly 5 or exactly
10 accepted. -/
theorem validateGeneratedPayload_amended :
    (∀ (payload : JsValue) (req : Bool),
       validateGeneratedPayload payload req = .ok () ↔
         (jsTypeofObject payload = true ∧ truthy payload = true ∧
          ∃ l, getField payload "phases" = some (.arr l) ∧
            5 ≤ l.length ∧ l.length ≤ 10 ∧
            (req = true →
              ∃ s, getField payload "source_digest" = some (.str s) ∧
                20 ≤ (trimJS s).length))) ∧
    validateGeneratedPayload (phasesOnlyPayload 4) false ≠ .ok () ∧
    validateGeneratedPayload (phasesOnlyPayload 5) false = .ok () ∧
    validateGeneratedPayload (phasesOnlyPayload 10) false = .ok () := by
  refine ⟨?_, ?_, rfl, rfl⟩
  · intro payload req
    unfold validateGeneratedPayload
    by_cases h1 : (!truthy payload || !jsTypeofObject payload) = true
    · rw [if_pos h1]
      simp only [Bool.or_eq_true, Bool.not_eq_true] at h1
      constructor
      · intro h
        exact absurd h (by simp)
      · rintro ⟨hobj, htr, -⟩
        rcases h1 with h1 | h1 <;> simp_all
    · rw [if_neg h1]
      have htr : truthy payload = true := by
        rcases Bool.eq_false_or_eq_true (truthy payload) with h | h
        · exact h
        · exact absurd (by simp [h]) h1
      have hobj : jsTypeofObject payload = true := by
        rcases Bool.eq_false_or_eq_true (jsTypeofObject payload) with h | h
        · exact h
        · exact absurd (by simp [h]) h1
      rcases hph : getField payload "phases" with - | v
      · simp only [hph]
        constructor
        · intro h; exact absurd h (by simp)
        · rintro ⟨-, -, l, hl, -⟩
          exact absurd hl (by simp)
      · cases v with
        | arr l =>
          simp only [hph]
          by_cases h5 : l.length < 5 ∨ 10 < l.length
          · rw [if_pos h5]
            constructor
            · intro h; exact absurd h (by simp)
            · rintro ⟨-, -, l', hl', ha, hb, -⟩
              have : l' = l := by
                injection hl' with h'
                injection h' with he
                exact he.symm
              subst this
              omega
          · rw [if_neg h5]
            cases req with
            | false =>
              simp only [Bool.false_eq_true, if_false]
              constructor
              · intro _
                exact ⟨hobj, htr, l, rfl, by omega, by omega, by simp⟩
              · intro _; trivial
            | true =>
              simp only [if_true]
              rcases hdg : getField payload "source_digest" with - | w
              · simp only [hdg]
                constructor
                · intro h; exact absurd h (by simp)
                · rintro ⟨-, -, l', hl', -, -, hreq⟩
                  obtain ⟨s, hs, -⟩ := hreq (by trivial)
                  exact absurd hs (by simp)
              · cases w with
                | str s =>
                  simp only [hdg]
                  by_cases hlen : (trimJS s).length < 20
                  · rw [if_pos hlen]
                    constructor
                    · intro h; exact absurd h (by simp)
                    · rintro ⟨-, -, l', hl', -, -, hreq⟩
                      obtain ⟨s', hs', hslen⟩ := hreq (by trivial)
                      have : s' = s := by
                        injection hs' with h'
                        injection h' with he
                        exact he.symm
                      subst this
                      omega
                  · rw [if_neg hlen]
                    constructor
                    · intro _
                      exact ⟨hobj, htr, l, rfl, by omega, by omega,
                        fun _ => ⟨s, rfl, by omega⟩⟩
                    · intro _; trivial
                | null =>
                  simp only [hdg]
                  constructor
                  · intro h; exact absurd h (by simp)
                  · rintro ⟨-, -, l', hl', -, -, hreq⟩
                    obtain ⟨s', hs', -⟩ := hreq (by trivial)
                    exact absurd hs' (by simp)
                | bool b =>
                  simp only [hdg]
                  constructor
                  · intro h; exact absurd h (by simp)
                  · rintro ⟨-, -, l', hl', -, -, hreq⟩
                    obtain ⟨s', hs', -⟩ := hreq (by trivial)
                    exact absurd hs' (by simp)
                | num q =>
                  simp only [hdg]
                  constructor
                  · intro h; exact absurd h (by simp)
                  · rintro ⟨-, -, l', hl', -, -, hreq⟩
                    obtain ⟨s', hs', -⟩ := hreq (by trivial)
                    exact absurd hs' (by simp)
                | arr a =>
                  simp only [hdg]
                  constructor
                  · intro h; exact absurd h (by simp)
                  · rintro ⟨-, -, l', hl', -, -, hreq⟩
                    obtain ⟨s', hs', -⟩ := hreq (by trivial)
                    exact absurd hs' (by simp)
                | obj o =>
                  simp only [hdg]
                  constructor
                  · intro h; exact absurd h (by simp)
                  · rintro ⟨-, -, l', hl', -, -, hreq⟩
                    obtain ⟨s', hs', -⟩ := hreq (by trivial)
                    exact absurd hs' (by simp)
        | null =>
          simp only [hph]
          constructor
          · intro h; exact absurd h (by simp)
          · rintro ⟨-, -, l, hl, -⟩
            exact absurd hl (by simp)
        | bool b =>
          simp only [hph]
          constructor
          · intro h; exact absurd h (by simp)
          · rintro ⟨-, -, l, hl, -⟩
            exact absurd hl (by simp)
        | num q =>
          simp only [hph]
          constructor
          · intro h; exact absurd h (by simp)
          · rintro ⟨-, -, l, hl, -⟩
            exact absurd hl (by simp)
        | str s =>
          simp only [hph]
          constructor
          · intro h; exact absurd h (by simp)
          · rintro ⟨-, -, l, hl, -⟩
            exact absurd hl (by simp)
        | obj o =>
          simp only [hph]
          constructor
          · intro h; exact absurd h (by simp)
          · rintro ⟨-, -, l, hl, -⟩
            exact absurd hl (by simp)
  · intro h
    rw [show validateGeneratedPayload (phasesOnlyPayload 4) false =
      .error "AI 返回的阶段数量不在 5-10 段之间。" from rfl] at h
    exact Except.noConfusion h

/-- C5 counterexample: `wsDigestPayload` is a non-null object with 5
phases and a 21-character `source_digest` (≥ 20 characters, so by the
claim the validator should return normally when a digest is required),
yet the validator throws, because the code measures the digest length
after trimming; the same payload passes when no digest is required. -/
theorem validateGeneratedPayload_counterexample :
    wsDigest.length = 21 ∧ 20 ≤ wsDigest.length ∧
    validateGeneratedPayload wsDigestPayload true =
      .error "AI 未基于参考资料输出 source_digest。" ∧
    validateGeneratedPayload wsDigestPayload false = .ok () := by
  exact ⟨rfl, by decide, rfl, rfl⟩

/-- C5 witness: the amended characterization applied to the concrete
payload `wsDigestPayload` with a required digest (the trimmed digest is
too short, so the right-hand side must fail) and to `phasesOnlyPayload
5` without one. -/
theorem validateGeneratedPayload_amended_witness :
    validateGeneratedPayload (phasesOnlyPayload 5) false = .ok () ∧
    validateGeneratedPayload wsDigestPayload true ≠ .ok () := by
  constructor
  · exact (validateGeneratedPayload_amended.1 (phasesOnlyPayload 5) false).mpr
      ⟨rfl, rfl, List.replicate 5 .null, rfl, by decide, by decide, by simp⟩
  · intro h
    obtain ⟨-, -, l, hl, -, -, hreq⟩ :=
      (validateGeneratedPayload_amended.1 wsDigestPayload true).mp h
    obtain ⟨s, hs, hlen⟩ := hreq rfl
    have : s = wsDigest := by
      have : getField wsDigestPayload "source_digest" = some (.str wsDigest) := rfl
      rw [this] at hs
      injection hs with h'
      injection h' with he
      exact he.symm
    subst this
    have : (trimJS wsDigest).length = 2 := by decide
    omega

/-! ## Generation orchestrator (C6) -/

theorem generationLoop_succ (repair : String → Option String)
    (oracle : Nat → GenResp) (rem att : Nat) :
    generationLoop repair oracle (rem + 1) att =
      match oracle att with
      | .httpError d => (.transport d, 1)
      | .okResp none =>
        ((generationLoop repair oracle rem (att + 1)).1,
         (generationLoop repair oracle rem (att + 1)).2 + 1)
      | .okResp (some content) =>
        match extractJsonPayload repair content with
        | some v => (.recovered v att, 1)
        | none =>
          ((generationLoop repair oracle rem (att + 1)).1,
           (generationLoop repair oracle rem (att + 1)).2 + 1) := rfl

theorem generationLoop_skip (repair : String → Option String)
    (oracle : Nat → GenResp) (rem att : Nat) (c : Option String)
    (h : oracle att = .okResp c)
    (hu : ∀ s, c = some s → extractJsonPayload repair s = none) :
    generationLoop repair oracle (rem + 1) att =
      ((generationLoop repair oracle rem (att + 1)).1,
       (generationLoop repair oracle rem (att + 1)).2 + 1) := by
  rw [generationLoop_succ, h]
  cases c with
  | none => rfl
  | some s => simp only [hu s rfl]

theorem generationLoop_calls_le (repair : String → Option String)
    (oracle : Nat → GenResp) : ∀ (rem att : Nat),
    (generationLoop repair oracle rem att).2 ≤ rem := by
  intro rem
  induction rem with
  | zero => intro att; exact le_refl 0
  | succ n ih =>
    intro att
    rw [generationLoop_succ]
    cases oracle att with
    | httpError d => simp
    | okResp c =>
      cases c with
      | none =>
        have := ih (att + 1)
        simp only []
        omega
      | some s =>
        cases hx : extractJsonPayload repair s with
        | some v => simp [hx]
        | none =>
          have := ih (att + 1)
          simp only [hx]
          omega

theorem postGenerate_calls_eq (repair : String → Option String)
    (oracle : Nat → GenResp) (req : Bool) :
    (postGenerate repair oracle req).generatorCalls =
      (generationLoop repair oracle 2 0).2 := by
  unfold postGenerate
  rcases hg : generationLoop repair oracle 2 0 with ⟨e, n⟩
  cases e with
  | transport d => rfl
  | exhausted => rfl
  | recovered v a =>
    rcases hv : validateGeneratedPayload v req with m | u <;> simp [hv]

/-- C6: the orchestrator makes at most two generator attempts; the
second attempt's user prompt is the first one's with the strict-JSON
instruction appended; and when both attempts answer with content from
which no structured object is recoverable, the request fails with the
unparseable-after-retry error and the validator is never invoked. -/
theorem postGenerate_two_attempts :
    (∀ (repair : String → Option String) (oracle : Nat → GenResp) (req : Bool),
       (postGenerate repair oracle req).generatorCalls ≤ 2) ∧
    (∀ base : String,
       userPromptFor base 1 = userPromptFor base 0 ++ strictJsonHint) ∧
    (∀ (repair : String → Option String) (oracle : Nat → GenResp) (req : Bool)
       (c0 c1 : Option String),
       oracle 0 = .okResp c0 → oracle 1 = .okResp c1 →
       (∀ s, c0 = some s → extractJsonPayload repair s = none) →
       (∀ s, c1 = some s → extractJsonPayload repair s = none) →
       (postGenerate repair oracle req).result =
           .errorResp 502 unparseableMessage ∧
         (postGenerate repair oracle req).validatorInvoked = false) := by
  refine ⟨?_, fun base => rfl, ?_⟩
  · intro repair oracle req
    rw [postGenerate_calls_eq]
    exact generationLoop_calls_le repair oracle 2 0
  · intro repair oracle req c0 c1 h0 h1 hu0 hu1
    have s2 : generationLoop repair oracle 2 0 =
        ((generationLoop repair oracle 1 1).1,
         (generationLoop repair oracle 1 1).2 + 1) :=
      generationLoop_skip repair oracle 1 0 c0 h0 hu0
    have s1 : generationLoop repair oracle 1 1 =
        ((generationLoop repair oracle 0 2).1,
         (generationLoop repair oracle 0 2).2 + 1) :=
      generationLoop_skip repair oracle 0 1 c1 h1 hu1
    have hloop : generationLoop repair oracle 2 0 = (.exhausted, 2) := by
      rw [s2, s1]
      rfl
    unfold postGenerate
    rw [hloop]
    exact ⟨rfl, rfl⟩

/-- C6 witness: the orchestrator theorem applied to the concrete
generator `oracleNoJson`, whose answers contain no recoverable JSON. -/
theorem postGenerate_two_attempts_witness :
    (postGenerate noRepair oracleNoJson false).result =
        .errorResp 502 unparseableMessage ∧
    (postGenerate noRepair oracleNoJson false).validatorInvoked = false ∧
    (postGenerate noRepair oracleNoJson false).generatorCalls ≤ 2 ∧
    userPromptFor "P" 1 = userPromptFor "P" 0 ++ strictJsonHint := by
  have h := postGenerate_two_attempts
  have hu : ∀ s : String, (some "no json here" : Option String) = some s →
      extractJsonPayload noRepair s = none := by
    intro s hs
    injection hs with h'
    subst h'
    rfl
  have hm := h.2.2 noRepair oracleNoJson false (some "no json here")
    (some "no json here") rfl rfl hu hu
  exact ⟨hm.1, hm.2, h.1 noRepair oracleNoJson false, h.2.1 "P"⟩

/-! ## Reference ingestion: counting and non-emptiness (C2, C9) -/

theorem filter_length_partition {α : Type} (l : List α) (p : α → Bool) :
    (l.filter p).length + (l.filter (fun a => !p a)).length = l.length := by
  induction l with
  | nil => rfl
  | cons a rest ih =>
    rcases hb : p a with - | -
    · simp [List.filter_cons, hb, ← ih]
      omega
    · simp [List.filter_cons, hb, ← ih]
      omega

theorem ingestDocs_fst_length (docs : List DocSource) :
    (ingestDocs docs).1.length =
      (docs.filter (fun d => isOkE (extractTextFromDocument d))).length := by
  induction docs with
  | nil => rfl
  | cons d rest ih =>
    simp only [ingestDocs]
    rcases hx : extractTextFromDocument d with m | t <;>
      simp [List.filter_cons, isOkE, hx, ih]

theorem ingestDocs_snd_length (docs : List DocSource) :
    (ingestDocs docs).2.length =
      (docs.filter (fun d => !isOkE (extractTextFromDocument d))).length := by
  induction docs with
  | nil => rfl
  | cons d rest ih =>
    simp only [ingestDocs]
    rcases hx : extractTextFromDocument d with m | t <;>
      simp [List.filter_cons, isOkE, hx, ih]

theorem ingestLinks_fst_length (links : List LinkSource) :
    (ingestLinks links).1.length =
      (links.filter (fun l => isOkE (fetchLinkContent l))).length := by
  induction links with
  | nil => rfl
  | cons l rest ih =>
    simp only [ingestLinks]
    rcases hx : fetchLinkContent l with m | t <;>
      simp [List.filter_cons, isOkE, hx, ih]

theorem ingestLinks_snd_length (links : List LinkSource) :
    (ingestLinks links).2.length =
      (links.filter (fun l => !isOkE (fetchLinkContent l))).length := by
  induction links with
  | nil => rfl
  | cons l rest ih =>
    simp only [ingestLinks]
    rcases hx : fetchLinkContent l with m | t <;>
      simp [List.filter_cons, isOkE, hx, ih]

theorem ingestDocs_fst_mem (docs : List DocSource) (e : ReferenceEntry)
    (he : e ∈ (ingestDocs docs).1) :
    ∃ d t, extractTextFromDocument d = .ok t ∧
      e = pushLimit ⟨.file, t, d.name⟩ := by
  induction docs with
  | nil => exact absurd he (by simp [ingestDocs])
  | cons d rest ih =>
    simp only [ingestDocs] at he
    rcases hx : extractTextFromDocument d with m | t <;> rw [hx] at he
    · exact ih he
    · rcases List.mem_cons.mp he with h1 | h2
      · exact ⟨d, t, hx, h1⟩
      · exact ih h2

theorem ingestLinks_fst_mem (links : List LinkSource) (e : ReferenceEntry)
    (he : e ∈ (ingestLinks links).1) :
    ∃ l t, fetchLinkContent l = .ok t ∧
      e = pushLimit ⟨.url, t, l.url⟩ := by
  induction links with
  | nil => exact absurd he (by simp [ingestLinks])
  | cons l rest ih =>
    simp only [ingestLinks] at he
    rcases hx : fetchLinkContent l with m | t <;> rw [hx] at he
    · exact ih he
    · rcases List.mem_cons.mp he with h1 | h2
      · exact ⟨l, t, hx, h1⟩
      · exact ih h2

theorem truncateText_ne_empty (s : String) (limit : Nat) (h : s ≠ "") :
    truncateText s limit ≠ "" := by
  unfold truncateText
  rw [if_neg h]
  split
  · intro hc
    have hlen := congrArg String.length hc
    rw [String.length_append] at hlen
    have : ("…" : String).length = 1 := rfl
    rw [this] at hlen
    simp at hlen
  · exact h

theorem extractTextFromDocument_ok_ne_empty (d : DocSource) (t : String)
    (h : extractTextFromDocument d = .ok t) : t ≠ "" := by
  unfold extractTextFromDocument at h
  by_cases h0 : d.size = 0
  · rw [if_pos h0] at h; exact absurd h (by simp)
  · rw [if_neg h0] at h
    by_cases h1 : d.size > MAX_UPLOAD_BYTES
    · rw [if_pos h1] at h; exact absurd h (by simp)
    · rw [if_neg h1] at h
      rcases hr : d.rawText with - | raw <;> rw [hr] at h
      · exact absurd h (by simp)
      · dsimp only at h
        by_cases h2 : (normalizeWhitespace raw).length = 0
        · rw [if_pos h2] at h; exact absurd h (by simp)
        · rw [if_neg h2] at h
          injection h with h'
          subst h'
          intro hc
          rw [hc] at h2
          exact h2 rfl

theorem fetchLinkContent_ok_ne_empty (l : LinkSource) (t : String)
    (h : fetchLinkContent l = .ok t) : t ≠ "" := by
  unfold fetchLinkContent at h
  rcases hr : l.response with - | p <;> rw [hr] at h
  · exact absurd h (by simp)
  · rcases p with ⟨status, extracted⟩
    dsimp only at h
    by_cases h1 : (!(200 ≤ status && status ≤ 299)) = true
    · rw [if_pos h1] at h; exact absurd h (by simp)
    · rw [if_neg h1] at h
      by_cases h2 : extracted = ""
      · rw [if_pos h2] at h; exact absurd h (by simp)
      · rw [if_neg h2] at h
        injection h with h'
        subst h'
        exact h2

theorem ingestReferences_references_cases (stext : Option String)
    (docs : List DocSource) (links : List LinkSource) :
    (ingestReferences stext docs links).references = [] ∨
    (ingestReferences stext docs links).references =
      (if trimJS (stext.getD "") ≠ "" then
        [pushLimit ⟨.text, trimJS (stext.getD ""), "user_input"⟩] else [])
      ++ (ingestDocs docs).1 ++ (ingestLinks links).1 := by
  simp only [ingestReferences]
  by_cases hni : (!(trimJS (stext.getD "") != "" || !docs.isEmpty ||
      !links.isEmpty)) = true
  · rw [if_pos hni]
    exact Or.inl rfl
  · rw [if_neg hni]
    by_cases hre : ((if trimJS (stext.getD "") ≠ "" then
        [pushLimit ⟨.text, trimJS (stext.getD ""), "user_input"⟩] else [])
        ++ (ingestDocs docs).1 ++ (ingestLinks links).1).isEmpty = true
    · rw [if_pos hre]
      exact Or.inl rfl
    · rw [if_neg hre]
      exact Or.inr rfl

/-- C9: every reference entry of any ingestion result has non-empty
content: supplemental text is admitted only when non-empty after
trimming, the document and URL extractors fail on empty extracted text,
and per-entry truncation preserves non-emptiness. -/
theorem ingestReferences_content_nonempty :
    ∀ (stext : Option String) (docs : List DocSource) (links : List LinkSource)
      (e : ReferenceEntry),
      e ∈ (ingestReferences stext docs links).references → e.content ≠ "" := by
  intro stext docs links e he
  rcases ingestReferences_references_cases stext docs links with hr | hr <;>
    rw [hr] at he
  · exact absurd he (by simp)
  · rcases List.mem_append.mp he with h1 | h2
    · rcases List.mem_append.mp h1 with h3 | h4
      · by_cases ht : trimJS (stext.getD "") ≠ ""
        · rw [if_pos ht] at h3
          simp only [List.mem_singleton] at h3
          subst h3
          exact truncateText_ne_empty _ _ ht
        · rw [if_neg ht] at h3
          exact absurd h3 (by simp)
      · obtain ⟨d, t, hok, rfl⟩ := ingestDocs_fst_mem docs e h4
        exact truncateText_ne_empty _ _ (extractTextFromDocument_ok_ne_empty d t hok)
    · obtain ⟨l, t, hok, rfl⟩ := ingestLinks_fst_mem links e h2
      exact truncateText_ne_empty _ _ (fetchLinkContent_ok_ne_empty l t hok)

/-- C9 witness: the non-emptiness theorem applied to the sole entry of a
concrete ingestion of supplemental text. -/
theorem ingestReferences_content_nonempty_witness :
    (pushLimit ⟨.text, "hi", "user_input"⟩).content ≠ "" :=
  ingestReferences_content_nonempty (some " hi ") [] [] _ (by decide)

theorem list_isEmpty_eq_nil {α : Type} {l : List α} (h : l.isEmpty = true) :
    l = [] := by
  cases l
  · rfl
  · simp [List.isEmpty] at h

/-- C2: the ingestion aggregator's status is exactly the spec's pure
function of (any source attempted?, number of successes, number of
failures): no attempt → empty, attempts but no entry → failed, all
entries → success, mixed → partial; moreover the entry list has exactly
one entry per successful source and the error list exactly one message
per failed source, so one source's failure never suppresses the
processing of the others. -/
theorem ingestReferences_status_spec (stext : Option String)
    (docs : List DocSource) (links : List LinkSource) :
    (ingestReferences stext docs links).status =
      specStatus (anyAttempted stext docs links) (succCount stext docs links)
        (failCount docs links) ∧
    (ingestReferences stext docs links).references.length =
      succCount stext docs links ∧
    (ingestReferences stext docs links).errors.length =
      failCount docs links := by
  have hdo := ingestDocs_fst_length docs
  have hde := ingestDocs_snd_length docs
  have hlo := ingestLinks_fst_length links
  have hle := ingestLinks_snd_length links
  have hdsum := filter_length_partition docs
    (fun d => isOkE (extractTextFromDocument d))
  have hlsum := filter_length_partition links
    (fun l => isOkE (fetchLinkContent l))
  simp only [ingestReferences]
  by_cases hni : (!(trimJS (stext.getD "") != "" || !docs.isEmpty ||
      !links.isEmpty)) = true
  · rw [if_pos hni]
    have h0 : trimJS (stext.getD "") = "" ∧ docs = [] ∧ links = [] := by
      rw [Bool.not_eq_true'] at hni
      simp at hni
      exact ⟨hni.1.1, hni.1.2, hni.2⟩
    obtain ⟨hA, hd, hl⟩ := h0
    subst hd; subst hl
    refine ⟨?_, ?_, ?_⟩ <;>
      simp [specStatus, anyAttempted, succCount, failCount, hA, ingestDocs,
        ingestLinks]
  · rw [if_neg hni]
    have hAtt : anyAttempted stext docs links = true := by
      unfold anyAttempted
      rcases Bool.eq_false_or_eq_true (trimJS (stext.getD "") != "" ||
        !docs.isEmpty || !links.isEmpty) with h | h
      · exact h
      · exact absurd (by simp [h]) hni
    have hreflen : ((if trimJS (stext.getD "") ≠ "" then
        [pushLimit ⟨.text, trimJS (stext.getD ""), "user_input"⟩] else [])
        ++ (ingestDocs docs).1 ++ (ingestLinks links).1).length =
        succCount stext docs links := by
      rw [List.length_append, List.length_append, hdo, hlo]
      unfold succCount
      by_cases ht : trimJS (stext.getD "") ≠ ""
      · rw [if_pos ht, if_pos ht]
        simp
      · rw [if_neg ht, if_neg ht]
        simp
    have herrlen : ((ingestDocs docs).2 ++ (ingestLinks links).2).length =
        failCount docs links := by
      rw [List.length_append, hde, hle]
      rfl
    by_cases hre : ((if trimJS (stext.getD "") ≠ "" then
        [pushLimit ⟨.text, trimJS (stext.getD ""), "user_input"⟩] else [])
        ++ (ingestDocs docs).1 ++ (ingestLinks links).1).isEmpty = true
    · rw [if_pos hre]
      have hrefs := list_isEmpty_eq_nil hre
      have hzero : succCount stext docs links = 0 := by
        rw [← hreflen, hrefs]
        rfl
      have hT : ¬ trimJS (stext.getD "") ≠ "" := by
        intro ht
        rw [if_pos ht] at hrefs
        simp at hrefs
      have hTf : (trimJS (stext.getD "") != "") = false := by
        simpa using not_not.mp (fun h => hT (by simpa using h))
      have hdl : docs = [] → links = [] → False := by
        intro h1 h2
        unfold anyAttempted at hAtt
        rw [hTf, h1, h2] at hAtt
        simp at hAtt
      rw [if_neg hT, List.nil_append] at hrefs
      obtain ⟨hd0, hl0⟩ := List.append_eq_nil.mp hrefs
      have hdOk : (docs.filter (fun d => isOkE (extractTextFromDocument d))).length = 0 := by
        rw [← hdo, hd0]
        rfl
      have hlOk : (links.filter (fun l => isOkE (fetchLinkContent l))).length = 0 := by
        rw [← hlo, hl0]
        rfl
      have hlenpos : 0 < docs.length + links.length := by
        by_cases hd : docs = []
        · have hl : links ≠ [] := fun hl => hdl hd hl
          have := List.length_pos.mpr hl
          omega
        · have := List.length_pos.mpr hd
          omega
      have hfailpos : 0 < failCount docs links := by
        unfold failCount
        omega
      refine ⟨?_, ?_, ?_⟩
      · rw [hAtt]
        simp [specStatus, hzero]
      · rw [hzero]
        rfl
      · have hp : ((ingestDocs docs).2 ++ (ingestLinks links).2).length > 0 := by
          rw [herrlen]
          exact hfailpos
        rw [if_pos hp]
        exact herrlen
    · rw [if_neg hre]
      have hspos : 0 < succCount stext docs links := by
        rw [← hreflen]
        refine List.length_pos.mpr (fun h => hre ?_)
        rw [h]
        rfl
      refine ⟨?_, hreflen, herrlen⟩
      rw [hAtt]
      have hs0 : ¬ succCount stext docs links = 0 := by omega
      by_cases hf : 0 < failCount docs links
      · have hp : ((ingestDocs docs).2 ++ (ingestLinks links).2).length > 0 := by
          rw [herrlen]
          exact hf
        rw [if_pos hp]
        simp [specStatus, hs0, hf]
      · have hp : ¬ ((ingestDocs docs).2 ++ (ingestLinks links).2).length > 0 := by
          rw [herrlen]
          omega
        rw [if_neg hp]
        simp [specStatus, hs0, hf]

/-! ## Structured-output extractor (C7) -/

theorem extractJsonPayload_eq_firstTruthy (repair : String → Option String)
    (content : String) :
    extractJsonPayload repair content =
      firstTruthyParse repair (candidatesOf (normalizeJsonText content)) := by
  by_cases h1 :
      truthyOpt (attemptParse repair (normalizeJsonText content)) = true
  · simp [extractJsonPayload, candidatesOf, firstTruthyParse, h1]
  · rcases hf : fenceInner (normalizeJsonText content).data with - | inner
    · rcases hb : braceSlice (normalizeJsonText content).data with - | sl
      · simp [extractJsonPayload, candidatesOf, firstTruthyParse, h1, hf, hb]
      · by_cases h3 :
            truthyOpt (attemptParse repair (String.mk sl)) = true
        · simp [extractJsonPayload, candidatesOf, firstTruthyParse, h1, hf, hb, h3]
        · simp [extractJsonPayload, candidatesOf, firstTruthyParse, h1, hf, hb, h3]
    · by_cases h2 :
          truthyOpt (attemptParse repair (trimJS (String.mk inner))) = true
      · rcases hap : attemptParse repair (trimJS (String.mk inner)) with - | v
        · rw [hap] at h2
          exact absurd h2 (by simp [truthyOpt])
        · rw [hap] at h2
          simp [extractJsonPayload, candidatesOf, firstTruthyParse, h1, hf, h2, hap]
      · rcases hb : braceSlice (normalizeJsonText content).data with - | sl
        · simp [extractJsonPayload, candidatesOf, firstTruthyParse, h1, hf, h2, hb]
        · by_cases h3 :
              truthyOpt (attemptParse repair (String.mk sl)) = true
          · simp [extractJsonPayload, candidatesOf, firstTruthyParse,
              h1, hf, h2, hb, h3]
          · simp [extractJsonPayload, candidatesOf, firstTruthyParse,
              h1, hf, h2, hb, h3]

theorem firstTruthyParse_none_iff (repair : String → Option String)
    (l : List String) :
    firstTruthyParse repair l = none ↔
      ∀ c ∈ l, truthyOpt (attemptParse repair c) = false := by
  induction l with
  | nil => simp [firstTruthyParse]
  | cons c rest ih =>
    simp only [firstTruthyParse]
    by_cases h : truthyOpt (attemptParse repair c) = true
    · rw [if_pos h]
      constructor
      · intro hc
        rw [hc] at h
        exact absurd h (by simp [truthyOpt])
      · intro hall
        have := hall c (by simp)
        rw [this] at h
        exact absurd h (by simp)
    · rw [if_neg h]
      rw [ih]
      constructor
      · intro hall c' hc'
        rcases List.mem_cons.mp hc' with rfl | hm
        · rcases Bool.eq_false_or_eq_true (truthyOpt (attemptParse repair c'))
            with hb | hb
          · exact absurd hb h
          · exact hb
        · exact hall c' hm
      · intro hall c' hc'
        exact hall c' (List.mem_cons_of_mem _ hc')

/-- C7 (amended): `extractJsonPayload` never throws and computes the
first candidate of the cascade — direct text, fenced block, then brace
slice — whose strict-or-repaired parse yields a truthy value, and it
returns the "not found" `none` exactly when every candidate's parse
fails or parses to a falsy value.  (The claim's "first candidate that
parses" is amended to "… that parses to a truthy value": JS truthiness
discards candidates parsing to `0`, `""`, `false` or `null`.) -/
theorem extractJsonPayload_cascade :
    (∀ (repair : String → Option String) (content : String),
       extractJsonPayload repair content =
         firstTruthyParse repair (candidatesOf (normalizeJsonText content))) ∧
    (∀ (repair : String → Option String) (content : String),
       extractJsonPayload repair content = none ↔
         ∀ c ∈ candidatesOf (normalizeJsonText content),
           truthyOpt (attemptParse repair c) = false) := by
  refine ⟨extractJsonPayload_eq_firstTruthy, ?_⟩
  intro repair content
  rw [extractJsonPayload_eq_firstTruthy]
  exact firstTruthyParse_none_iff repair _

/-- C7 counterexample: on input "0" the direct candidate parses under
strict `JSON.parse` (to the number 0), yet the extractor returns the
"not found" result, because 0 is falsy — refuting "returns the first
candidate that parses / null only if every candidate and repair
fails". -/
theorem extractJsonPayload_counterexample :
    (jsonParse (normalizeJsonText "0")).isSome = true ∧
    truthyOpt (jsonParse (normalizeJsonText "0")) = false ∧
    extractJsonPayload noRepair "0" = none := ⟨rfl, rfl, rfl⟩

/-- C7 witness: the cascade theorem applied at the concrete repair
oracle `noRepair` and input "0". -/
theorem extractJsonPayload_cascade_witness :
    truthyOpt (attemptParse noRepair (normalizeJsonText "0")) = false := by
  have h := (extractJsonPayload_cascade.2 noRepair "0").mp rfl
  exact h (normalizeJsonText "0") (by decide)

/-! ## Ordinal timestamps and real years (C4) -/

theorem int_fdiv_ofNat4 (m : Nat) :
    ((m : Int)).fdiv 4 = ((m / 4 : Nat) : Int) := by
  show (Int.ofNat m).fdiv (Int.ofNat 4) = Int.ofNat (m / 4)
  cases m <;> rfl

theorem int_fdiv_ofNat100 (m : Nat) :
    ((m : Int)).fdiv 100 = ((m / 100 : Nat) : Int) := by
  show (Int.ofNat m).fdiv (Int.ofNat 100) = Int.ofNat (m / 100)
  cases m <;> rfl

theorem int_fdiv_ofNat400 (m : Nat) :
    ((m : Int)).fdiv 400 = ((m / 400 : Nat) : Int) := by
  show (Int.ofNat m).fdiv (Int.ofNat 400) = Int.ofNat (m / 400)
  cases m <;> rfl

theorem daysFromYear0_natCast (y : Nat) :
    daysFromYear0 (y : Int) =
      365 * (y : Int) + (((y + 3) / 4 : Nat) : Int) -
        (((y + 99) / 100 : Nat) : Int) + (((y + 399) / 400 : Nat) : Int) := by
  unfold daysFromYear0
  have h4 : ((y : Int) + 3) = ((y + 3 : Nat) : Int) := by push_cast; ring
  have h100 : ((y : Int) + 99) = ((y + 99 : Nat) : Int) := by push_cast; ring
  have h400 : ((y : Int) + 399) = ((y + 399 : Nat) : Int) := by push_cast; ring
  rw [h4, h100, h400, int_fdiv_ofNat4, int_fdiv_ofNat100, int_fdiv_ofNat400]

theorem daysFromYear0_lt_year {a b : Nat} (h : a < b) :
    daysFromYear0 (a : Int) < daysFromYear0 (b : Int) := by
  rw [daysFromYear0_natCast, daysFromYear0_natCast]
  omega

theorem daysFromYear0_le_year {a b : Nat} (h : a ≤ b) :
    daysFromYear0 (a : Int) ≤ daysFromYear0 (b : Int) := by
  rw [daysFromYear0_natCast, daysFromYear0_natCast]
  omega

theorem daysFromYear0_succ_ge (y : Nat) :
    daysFromYear0 (y : Int) + 364 ≤ daysFromYear0 ((y + 1 : Nat) : Int) := by
  rw [daysFromYear0_natCast, daysFromYear0_natCast]
  omega

theorem monthPrefixDays_le (leap : Bool) (m : Nat) (h : m < 12) :
    monthPrefixDays leap m ≤ 335 := by
  interval_cases m <;> cases leap <;> decide

theorem jsUTC_days_range (y : Nat) (h : y ≤ 275000) :
    -100000000 ≤ daysFromYear0 (y : Int) - epochShiftDays ∧
    daysFromYear0 (y : Int) - epochShiftDays ≤ 99999000 := by
  have he : epochShiftDays = 719528 := by decide
  rw [daysFromYear0_natCast, he]
  omega

theorem jsUTC_ym (y m : Nat) (hy : 100 ≤ y) (hr : y ≤ 275000) (hm : m < 12) :
    jsUTC (y : Int) m =
      some (86400 * (daysFromYear0 (y : Int) +
        (monthPrefixDays (isLeapYear (y : Int)) m : Int) - epochShiftDays)) := by
  have hno : ¬(0 ≤ (y : Int) ∧ (y : Int) ≤ 99) := by omega
  unfold jsUTC
  rw [if_neg hno]
  rw [Nat.div_eq_of_lt hm, Nat.mod_eq_of_lt hm]
  simp only [Nat.cast_zero, add_zero]
  have hd := jsUTC_days_range y hr
  have hmp : (monthPrefixDays (isLeapYear (y : Int)) m : Int) ≤ 335 := by
    exact_mod_cast monthPrefixDays_le _ m hm
  have hmp0 : (0 : Int) ≤ (monthPrefixDays (isLeapYear (y : Int)) m : Int) :=
    Int.ofNat_nonneg _
  rw [if_pos (by omega)]

theorem monthPrefixDays_zero (leap : Bool) : monthPrefixDays leap 0 = 0 := by
  cases leap <;> decide

theorem jsUTC_jan (y : Nat) (h : 100 ≤ y) (hr : y ≤ 275000) :
    jsUTC (y : Int) 0 =
      some (86400 * (daysFromYear0 (y : Int) - epochShiftDays)) := by
  rw [jsUTC_ym y 0 h hr (by omega), monthPrefixDays_zero]
  norm_num

theorem jsUTC_jan_injective {a b : Nat} (ha : 100 ≤ a) (ha2 : a ≤ 275000)
    (hb : 100 ≤ b) (hb2 : b ≤ 275000) (h : a ≠ b) :
    jsUTC (a : Int) 0 ≠ jsUTC (b : Int) 0 := by
  rw [jsUTC_jan a ha ha2, jsUTC_jan b hb hb2]
  intro he
  injection he with he'
  have h2 : daysFromYear0 (a : Int) = daysFromYear0 (b : Int) := by omega
  rcases lt_or_gt_of_ne h with hlt | hgt
  · exact absurd h2 (ne_of_lt (daysFromYear0_lt_year hlt))
  · exact absurd h2.symm (ne_of_lt (daysFromYear0_lt_year hgt))

theorem jsUTC_big_year_gt (Y y m : Nat) (hY : 2100 ≤ Y) (hYr : Y ≤ 275000)
    (hy1 : 100 ≤ y) (hy2 : y < Y) (hm : m < 12) :
    jsUTC (y : Int) m ≠ jsUTC (Y : Int) 0 := by
  rw [jsUTC_ym y m hy1 (by omega) hm, jsUTC_jan Y (by omega) hYr]
  have hmp : (monthPrefixDays (isLeapYear (y : Int)) m : Int) ≤ 335 := by
    exact_mod_cast monthPrefixDays_le _ m hm
  have hstep := daysFromYear0_succ_ge y
  have hmono : daysFromYear0 ((y + 1 : Nat) : Int) ≤ daysFromYear0 (Y : Int) :=
    daysFromYear0_le_year (by omega)
  intro he
  injection he with he'
  omega

theorem matchYearAt_range {cs : List Char} {y : Nat}
    (h : matchYearAt cs = some y) : 1900 ≤ y ∧ y ≤ 2099 := by
  cases cs with
  | nil => exact absurd h (by simp [matchYearAt])
  | cons c1 cs1 =>
  cases cs1 with
  | nil => exact absurd h (by simp [matchYearAt])
  | cons c2 cs2 =>
  cases cs2 with
  | nil => exact absurd h (by simp [matchYearAt])
  | cons c3 cs3 =>
  cases cs3 with
  | nil => exact absurd h (by simp [matchYearAt])
  | cons c4 rest =>
    unfold matchYearAt at h
    dsimp only at h
    by_cases hc : (((c1 == '1' && c2 == '9') || (c1 == '2' && c2 == '0'))
        && isDigitChar c3 && isDigitChar c4) = true
    · rw [if_pos hc] at h
      injection h with h'
      subst h'
      simp only [Bool.and_eq_true, Bool.or_eq_true, beq_iff_eq, isDigitChar,
        decide_eq_true_eq] at hc
      rcases hc with ⟨⟨hAB, h3a, h3b⟩, h4a, h4b⟩
      have e1 : ('1' : Char).toNat = 49 := rfl
      have e9 : ('9' : Char).toNat = 57 := rfl
      have e2 : ('2' : Char).toNat = 50 := rfl
      have e0 : ('0' : Char).toNat = 48 := rfl
      rcases hAB with ⟨hx, hy⟩ | ⟨hx, hy⟩ <;> subst hx <;> subst hy <;>
        simp only [digitsVal, List.foldl, e1, e9, e2, e0] <;> omega
    · rw [if_neg hc] at h
      exact absurd h (by simp)

theorem matchQuarterAt_range {cs : List Char} {y q : Nat}
    (h : matchQuarterAt cs = some (y, q)) :
    1900 ≤ y ∧ y ≤ 2099 ∧ 1 ≤ q ∧ q ≤ 4 := by
  cases cs with
  | nil => exact absurd h (by simp [matchQuarterAt])
  | cons c1 cs1 =>
  cases cs1 with
  | nil => exact absurd h (by simp [matchQuarterAt])
  | cons c2 cs2 =>
  cases cs2 with
  | nil => exact absurd h (by simp [matchQuarterAt])
  | cons c3 cs3 =>
  cases cs3 with
  | nil => exact absurd h (by simp [matchQuarterAt])
  | cons c4 rest =>
    unfold matchQuarterAt at h
    dsimp only at h
    by_cases hc : (((c1 == '1' && c2 == '9') || (c1 == '2' && c2 == '0'))
        && isDigitChar c3 && isDigitChar c4) = true
    · rw [if_pos hc] at h
      rcases hdw : rest.dropWhile isJsWs with - | ⟨qc, t1⟩ <;> rw [hdw] at h
      · exact absurd h (by simp)
      · cases t1 with
        | nil => exact absurd h (by simp)
        | cons dc t2 =>
          dsimp only at h
          by_cases hq : ((qc == 'Q' || qc == 'q') &&
              (49 ≤ dc.toNat && dc.toNat ≤ 52)) = true
          · rw [if_pos hq] at h
            injection h with h'
            injection h' with hy hq'
            subst hy
            subst hq'
            simp only [Bool.and_eq_true, Bool.or_eq_true, beq_iff_eq,
              isDigitChar, decide_eq_true_eq] at hc hq
            rcases hc with ⟨⟨hAB, h3a, h3b⟩, h4a, h4b⟩
            have e1 : ('1' : Char).toNat = 49 := rfl
            have e9 : ('9' : Char).toNat = 57 := rfl
            have e2 : ('2' : Char).toNat = 50 := rfl
            have e0 : ('0' : Char).toNat = 48 := rfl
            rcases hAB with ⟨hx, hy⟩ | ⟨hx, hy⟩ <;> subst hx <;> subst hy <;>
              simp only [digitsVal, List.foldl, e1, e9, e2, e0] <;> omega
          · rw [if_neg hq] at h
            exact absurd h (by simp)
    · rw [if_neg hc] at h
      exact absurd h (by simp)

theorem matchYear_range {cs : List Char} {y : Nat}
    (h : matchYear cs = some y) : 1900 ≤ y ∧ y ≤ 2099 := by
  induction cs with
  | nil => exact absurd h (by simp [matchYear])
  | cons c rest ih =>
    unfold matchYear at h
    rcases hAt : matchYearAt (c :: rest) with - | y' <;> rw [hAt] at h
    · exact ih h
    · injection h with h'
      subst h'
      exact matchYearAt_range hAt

theorem matchQuarter_range {cs : List Char} {y q : Nat}
    (h : matchQuarter cs = some (y, q)) :
    1900 ≤ y ∧ y ≤ 2099 ∧ 1 ≤ q ∧ q ≤ 4 := by
  induction cs with
  | nil => exact absurd h (by simp [matchQuarter])
  | cons c rest ih =>
    unfold matchQuarter at h
    rcases hAt : matchQuarterAt (c :: rest) with - | p <;> rw [hAt] at h
    · exact ih h
    · injection h with h'
      subst h'
      exact matchQuarterAt_range hAt

theorem yearToTimestamp_cn {s : String} {n : Nat} (h : cnResolved s n)
    (i : Nat) :
    yearToTimestamp (.str s) i = jsUTC ((2000 + n : Nat) : Int) 0 := by
  obtain ⟨hq, hy, hcn⟩ := h
  unfold yearToTimestamp
  simp only [hq, hy, hcn]
  norm_cast

theorem yearToTimestamp_quarter {s : String} {y q : Nat}
    (h : matchQuarter (trimJS s).data = some (y, q)) (i : Nat) :
    yearToTimestamp (.str s) i = jsUTC (y : Int) ((q - 1) * 3) := by
  unfold yearToTimestamp
  simp only [h]

theorem yearToTimestamp_year {s : String} {y : Nat}
    (hq : matchQuarter (trimJS s).data = none)
    (h : matchYear (trimJS s).data = some y) (i : Nat) :
    yearToTimestamp (.str s) i = jsUTC (y : Int) 0 := by
  unfold yearToTimestamp
  simp only [hq, h]

/-- C4 (amended): a label matching the localized ordinal pattern
resolves to `Date.UTC(2000 + N, 0, 1) / 1000` — Jan 1 of the synthetic
year `2000 + N` while that year lies inside the TimeClip range of
`Date.UTC`, and NaN beyond it.  Distinct in-range ordinal values never
collide with each other, and an in-range ordinal with `N ≥ 100` never
collides with any timestamp produced by the string-regex year rules
(year+quarter and plain/embedded four-digit year, whose years lie in
1900–2099).  But the offset base does NOT prevent collisions with
real-year labels: an ordinal `N < 100` coincides with the real-year
string label of `2000 + N` (第5季 vs "2005"), and an ordinal of ANY
size coincides with the numeric plain-year label `2000 + N` (第150季 vs
the number 2150) — see the counterexample. -/
theorem yearToTimestamp_cn_ordinal_amended :
    (∀ (s : String) (n i : Nat), cnResolved s n →
       yearToTimestamp (.str s) i = jsUTC ((2000 + n : Nat) : Int) 0) ∧
    (∀ (s t : String) (n m i j : Nat), cnResolved s n → cnResolved t m →
       n ≠ m → 2000 + n ≤ 275000 → 2000 + m ≤ 275000 →
       yearToTimestamp (.str s) i ≠ yearToTimestamp (.str t) j) ∧
    (∀ (s t : String) (n i j : Nat), cnResolved s n → 100 ≤ n →
       2000 + n ≤ 275000 → strYearRuleResolved t →
       yearToTimestamp (.str s) i ≠ yearToTimestamp (.str t) j) ∧
    (∀ (s : String) (n i j : Nat), cnResolved s n → 2000 + n ≤ 275000 →
       yearToTimestamp (.str s) i =
         yearToTimestamp (.num ((2000 + n : Nat) : Int)) j) := by
  refine ⟨?_, ?_, ?_, ?_⟩
  · intro s n i hs
    exact yearToTimestamp_cn hs i
  · intro s t n m i j hs ht hnm hrn hrm
    rw [yearToTimestamp_cn hs i, yearToTimestamp_cn ht j]
    exact jsUTC_jan_injective (by omega) (by omega) (by omega) (by omega)
      (by omega)
  · intro s t n i j hs hn hrn hr
    rw [yearToTimestamp_cn hs i]
    rcases hr with ⟨⟨y, q⟩, hq⟩ | ⟨hq, y, hy⟩
    · obtain ⟨hy1, hy2, hq1, hq2⟩ := matchQuarter_range hq
      rw [yearToTimestamp_quarter hq j]
      exact (jsUTC_big_year_gt (2000 + n) y ((q - 1) * 3)
        (by omega) (by omega) (by omega) (by omega) (by omega)).symm
    · obtain ⟨hy1, hy2⟩ := matchYear_range hy
      rw [yearToTimestamp_year hq hy j]
      exact (jsUTC_big_year_gt (2000 + n) y 0
        (by omega) (by omega) (by omega) (by omega) (by omega)).symm
  · intro s n i j hs hrn
    rw [yearToTimestamp_cn hs i]
    rfl

/-- C4 counterexample: the ordinal label "第5季" and the plain-year
string label "2005" resolve to the same timestamp (Jan 1 2005); the
ordinal label "第150季" (N = 150 ≥ 100) and the numeric plain-year
label 2150 resolve to the same timestamp (Jan 1 2150); and the ordinal
label "第999999季" resolves to NaN, not Jan 1 of year 1001999 — so
ordinal-pattern labels do collide with real four-digit-year labels, and
"Jan 1 of 2000+N" fails beyond the clip range. -/
theorem yearToTimestamp_cn_ordinal_counterexample :
    yearToTimestamp (.str "第5季") 0 = yearToTimestamp (.str "2005") 0 ∧
    cnResolved "第5季" 5 ∧
    matchQuarter (trimJS "2005").data = none ∧
    matchYear (trimJS "2005").data = some 2005 ∧
    yearToTimestamp (.str "第5季") 0 = some 1104537600 ∧
    cnResolved "第150季" 150 ∧
    yearToTimestamp (.str "第150季") 0 = yearToTimestamp (.num 2150) 0 ∧
    yearToTimestamp (.str "第150季") 0 = some 5680281600 ∧
    cnResolved "第999999季" 999999 ∧
    yearToTimestamp (.str "第999999季") 0 = none := by
  refine ⟨by decide, ⟨by decide, by decide, by decide⟩, by decide, by decide,
    by decide, ⟨by decide, by decide, by decide⟩, by decide, by decide,
    ⟨by decide, by decide, by decide⟩, by decide⟩

/-- C4 witness: the amended theorem applied to the concrete ordinal
labels "第5季" (value rule), "第5季" vs "第7季" (distinct ordinals),
"第200季" vs the real-year string label "1999", and "第150季" vs the
numeric label 2150. -/
theorem yearToTimestamp_cn_ordinal_amended_witness :
    yearToTimestamp (.str "第5季") 0 = jsUTC ((2000 + 5 : Nat) : Int) 0 ∧
    yearToTimestamp (.str "第5季") 0 ≠ yearToTimestamp (.str "第7季") 0 ∧
    yearToTimestamp (.str "第200季") 0 ≠ yearToTimestamp (.str "1999") 0 ∧
    yearToTimestamp (.str "第150季") 0 =
      yearToTimestamp (.num ((2000 + 150 : Nat) : Int)) 0 := by
  refine ⟨?_, ?_, ?_, ?_⟩
  · exact yearToTimestamp_cn_ordinal_amended.1 "第5季" 5 0
      (by refine ⟨?_, ?_, ?_⟩ <;> decide)
  · exact yearToTimestamp_cn_ordinal_amended.2.1 "第5季" "第7季" 5 7 0 0
      (by refine ⟨?_, ?_, ?_⟩ <;> decide) (by refine ⟨?_, ?_, ?_⟩ <;> decide)
      (by decide) (by decide) (by decide)
  · exact yearToTimestamp_cn_ordinal_amended.2.2.1 "第200季" "1999" 200 0 0
      (by refine ⟨?_, ?_, ?_⟩ <;> decide) (by decide) (by decide)
      (Or.inr ⟨by decide, 1999, by decide⟩)
  · exact yearToTimestamp_cn_ordinal_amended.2.2.2 "第150季" 150 0 0
      (by refine ⟨?_, ?_, ?_⟩ <;> decide) (by decide)
